import Mathlib

/-!
Verification of the Zork-playing agent of `webllm-sandbox`: a shallow
embedding of `ZorkMemory` (structured memory: rolling command window,
forbidden-command countdown map, room graph, unresolved leads, global
inventory) and `ZorkPolicy` (candidate generation, scoring, command
validation) as pure Lean functions over an explicit state record, with
theorems settling the frozen claims about them.

Modelling conventions:
- JavaScript `Map` is modelled as an insertion-ordered association list
  (`set` updates in place or appends; iteration order is list order),
  JavaScript `Set` as a duplicate-free insertion-ordered list.
- JavaScript strings are Lean `String`s; all operations (trim, split,
  toUpperCase, substring search, regular-expression scans) are defined
  on the underlying character list, restricted to ASCII (the sources
  only ever handle ASCII game text and commands).
- The regular-expression scans of the source are implemented directly as
  leftmost ordered-alternation matchers with explicit scan loops,
  mirroring the `while ((match = pattern.exec(text)) !== null)` idiom.
-/

namespace Zork

/-! ## Character and string primitives (ASCII models of the JS built-ins) -/

/-- The character list underlying a string. -/
def cs (s : String) : List Char := s.data

/-- ASCII whitespace, the model of the JS `\s` class and of `trim`. -/
def isWS (c : Char) : Bool :=
  c = ' ' || c = '\t' || c = '\n' || c = '\r' || c = '\x0b' || c = '\x0c'

def isLowerAlpha (c : Char) : Bool := 'a' ≤ c && c ≤ 'z'

def isDigitCh (c : Char) : Bool := '0' ≤ c && c ≤ '9'

/-- Model of `String.prototype.trim` on a character list. -/
def trimCh (l : List Char) : List Char :=
  ((l.dropWhile isWS).reverse.dropWhile isWS).reverse

def trimS (s : String) : String := String.mk (trimCh s.data)

/-- Model of `String.prototype.toUpperCase`, ASCII. -/
def toUpperS (s : String) : String := String.mk (s.data.map Char.toUpper)

/-- Lowercasing for case-insensitive (`/i`) tests, ASCII. -/
def lowerCh (l : List Char) : List Char := l.map Char.toLower

/-- Model of `String.prototype.split(sep)` with a single-character separator. -/
def splitCh (sep : Char) : List Char → List (List Char)
  | [] => [[]]
  | c :: r =>
    let rest := splitCh sep r
    if c = sep then [] :: rest
    else match rest with
      | [] => [[c]]
      | h :: t => (c :: h) :: t

/-- Substring test (`String.prototype.includes` / regex literal search). -/
def isSubstr (pat : List Char) : List Char → Bool
  | [] => pat.isEmpty
  | c :: r => pat.isPrefixOf (c :: r) || isSubstr pat r

/-- Case-insensitive substring test: does `l` (already lowercased)
contain one of the literal alternatives?  Models `/a|b|c/i.test(s)`. -/
def containsAny (l : List Char) (alts : List String) : Bool :=
  alts.any (fun a => isSubstr (cs a) l)

/-- Model of `String.prototype.startsWith`. -/
def startsWithS (s p : String) : Bool := (cs p).isPrefixOf s.data

/-- Delete the first occurrence of `pat` from `l`; the model of
`s.replace(pat, '')` with a plain-string pattern (JS replaces only the
first occurrence). -/
def dropFirstOcc (pat : List Char) : List Char → List Char
  | [] => []
  | c :: r => if pat.isPrefixOf (c :: r) then (c :: r).drop pat.length
              else c :: dropFirstOcc pat r

/-- The first alternative (in order) that is a prefix of `l`:
ordered regex alternation at a fixed position. -/
def firstPrefixOf (alts : List (List Char)) (l : List Char) : Option (List Char) :=
  alts.find? (fun w => w.isPrefixOf l)

def digitsToNat (ds : List Char) : Nat :=
  ds.foldl (fun n c => n * 10 + (c.toNat - 48)) 0

/-! ## Insertion-ordered maps and sets (models of JS `Map` / `Set`) -/

/-- Model of `Map.prototype.get` on an insertion-ordered association list. -/
def assocLookup {α : Type} (m : List (String × α)) (k : String) : Option α :=
  (m.find? (fun e => e.1 == k)).map (fun e => e.2)

/-- Model of `Map.prototype.has`. -/
def assocHas {α : Type} (m : List (String × α)) (k : String) : Bool :=
  m.any (fun e => e.1 == k)

/-- Model of `Map.prototype.set`: update in place if present, else append. -/
def assocSet {α : Type} (m : List (String × α)) (k : String) (v : α) :
    List (String × α) :=
  if m.any (fun e => e.1 == k) then
    m.map (fun e => if e.1 == k then (k, v) else e)
  else m ++ [(k, v)]

/-- Keys occur at most once; an invariant of every JS `Map` model. -/
def keysUnique {α : Type} (m : List (String × α)) : Prop :=
  m.Pairwise (fun a b => a.1 ≠ b.1)

/-- The forbidden-command map (`Map<string, number>`). -/
def mapLookup (m : List (String × Int)) (k : String) : Option Int := assocLookup m k

/-- Has-test on the forbidden-command map. -/
def mapHas (m : List (String × Int)) (k : String) : Bool := assocHas m k

/-- Set on the forbidden-command map. -/
def mapSet (m : List (String × Int)) (k : String) (v : Int) : List (String × Int) :=
  assocSet m k v

/-- Model of `Set.prototype.add`: append if absent. -/
def setAdd (s : List String) (x : String) : List String :=
  if s.contains x then s else s ++ [x]

/-- Merge loop `for (x of src) if (!dst.includes(x)) dst.push(x)`. -/
def listMerge (dst src : List String) : List String :=
  src.foldl setAdd dst

/-! ## Data model (`ZorkMemory.ts` interfaces) -/

/-- Model of `CommandResult.result`: `'progress' | 'no-change' | 'failure'`. -/
inductive RType where
  | progress
  | nochange
  | failure
deriving DecidableEq, Repr

/-- Model of `CommandResult`. -/
structure CommandResult where
  command : String
  result : RType
  turn : Nat
deriving DecidableEq, Repr

/-- Model of `UnresolvedLead` (the `type` field is one of
locked/container/puzzle/hazard/notable, kept as a string). -/
structure UnresolvedLead where
  room : String
  description : String
  type : String
deriving DecidableEq, Repr

/-- Model of `GameState`. -/
structure GameState where
  currentRoom : String
  exits : List String
  visibleObjects : List String
  inventory : List String
  score : Option Nat
  moves : Option Nat
  notableClues : List String
deriving DecidableEq, Repr

/-- Model of `RoomInfo`. -/
structure RoomInfo where
  name : String
  exits : List String
  triedExits : List String
  objects : List String
  examinedObjects : List String
  takenObjects : List String
  description : Option String
  visitCount : Nat
deriving DecidableEq, Repr

/-- Model of `ShortTermMemory`. -/
structure ShortTermMemory where
  currentPlan : String
  lastCommands : List CommandResult
  stuckCount : Nat
  forbiddenCommands : List (String × Int)
  noChangeTurns : Nat
  gameSummary : String
  lastSummaryTurn : Nat
deriving DecidableEq, Repr

/-- Model of `LongTermMemory` (`rooms` is an insertion-ordered map). -/
structure LongTermMemory where
  rooms : List (String × RoomInfo)
  unresolvedLeads : List UnresolvedLead
  objectsOfInterest : List (String × String)
  globalInventory : List String
deriving DecidableEq, Repr

/-- The private state of a `ZorkMemory` instance. -/
structure ZorkMemory where
  shortTerm : ShortTermMemory
  longTerm : LongTermMemory
  currentTurn : Nat
  lastGameOutput : String
  lastState : Option GameState
deriving DecidableEq, Repr

/-- The `ZorkMemory` constructor / `reset()` state. -/
def initMemory : ZorkMemory where
  shortTerm :=
    { currentPlan := "Explore the starting area"
      lastCommands := []
      stuckCount := 0
      forbiddenCommands := []
      noChangeTurns := 0
      gameSummary := ""
      lastSummaryTurn := 0 }
  longTerm :=
    { rooms := []
      unresolvedLeads := []
      objectsOfInterest := []
      globalInventory := [] }
  currentTurn := 0
  lastGameOutput := ""
  lastState := none

/-- Model of `rooms.get`. -/
def roomsLookup (m : List (String × RoomInfo)) (k : String) : Option RoomInfo :=
  assocLookup m k

/-- Model of `rooms.set`. -/
def roomsSet (m : List (String × RoomInfo)) (k : String) (v : RoomInfo) :
    List (String × RoomInfo) :=
  assocSet m k v

/-- Model of `objectsOfInterest.set`. -/
def ooiSet (m : List (String × String)) (k v : String) : List (String × String) :=
  assocSet m k v

/-- Model of `DIRECTION_MAP` keys (every key maps to a truthy string). -/
def directionMapKeys : List String :=
  ["N", "NORTH", "S", "SOUTH", "E", "EAST", "W", "WEST",
   "NE", "NORTHEAST", "NW", "NORTHWEST", "SE", "SOUTHEAST", "SW", "SOUTHWEST",
   "UP", "U", "DOWN", "D", "ENTER", "IN", "EXIT", "OUT"]

/-- Model of `MOVEMENT_COMMANDS`. -/
def movementCommands : List String :=
  ["N", "S", "E", "W", "NE", "NW", "SE", "SW", "UP", "DOWN", "U", "D",
   "ENTER", "EXIT", "IN", "OUT", "CLIMB"]

/-! ## Failure-keyword alternatives

Several source regexes contain an apostrophe (e.g. the `don`+`t know`
keyword); the apostrophe character is spelled via its code point. -/

def apo : String := String.singleton (Char.ofNat 39)

def sDontKnow : String := "don" ++ apo ++ "t know"
def sCant : String := "can" ++ apo ++ "t"
def sWont : String := "won" ++ apo ++ "t"
def sIsnt : String := "isn" ++ apo ++ "t"
def sArent : String := "aren" ++ apo ++ "t"

/-- The room-name rejection pattern of `extractState` (line 109). -/
def extractRoomFail : List String :=
  [sDontKnow, sCant, "cannot", sWont, sIsnt, sArent, "impossible",
   "already", "nothing", "no verb", "what do you want", "which",
   "you see", "you are", "there is"]

/-- The failure-classification pattern of `updateAfterCommand` (line 206). -/
def updateFailAlts : List String :=
  [sDontKnow, sCant, "cannot", sWont, sIsnt, sArent, "impossible",
   "already", "nothing", "no verb", "what do you want", "which do you mean"]

/-! ## Regex scans

Each source regex is executed with the `while (exec)` global-scan idiom:
at each position try the pattern (ordered alternation, greedy repetition);
on a match, record the capture group and resume after the matched text,
otherwise advance one character.  The matchers below return the consumed
length of the whole match together with the capture group; every pattern
consumes at least one character on success. -/

/-- Global scan collecting all capture groups.  Fuel is the text length. -/
def scanCaps (tryAt : List Char → Option (Nat × List Char)) :
    Nat → List Char → List (List Char)
  | 0, _ => []
  | _, [] => []
  | fuel + 1, l@(_ :: r) =>
    match tryAt l with
    | some (n, g) => g :: scanCaps tryAt fuel (l.drop n)
    | none => scanCaps tryAt fuel r

/-- Leftmost match (non-global `String.prototype.match`). -/
def scanFirst {α : Type} (tryAt : List Char → Option α) : List Char → Option α
  | [] => none
  | l@(_ :: r) =>
    match tryAt l with
    | some v => some v
    | none => scanFirst tryAt r

def altsOf (ws : List String) : List (List Char) := ws.map cs

/-- Alternatives of exit pattern 1, in source order. -/
def dirWords10 : List String :=
  ["north", "south", "east", "west", "northeast", "northwest",
   "southeast", "southwest", "up", "down"]

def cardinal4 : List String := ["north", "south", "east", "west"]

def dirWords6 : List String := ["north", "south", "east", "west", "up", "down"]

/-- A bare direction-word alternation at the current position. -/
def tryDirAt (ws : List (List Char)) (l : List Char) : Option (Nat × List Char) :=
  (firstPrefixOf ws l).map (fun w => (w.length, w))

/-- Exit pattern 1: an optional `to the ` prefix then a direction word. -/
def tryExit1 (l : List Char) : Option (Nat × List Char) :=
  if (cs "to the ").isPrefixOf l then
    match firstPrefixOf (altsOf dirWords10) (l.drop 7) with
    | some w => some (7 + w.length, w)
    | none => tryDirAt (altsOf dirWords10) l
  else tryDirAt (altsOf dirWords10) l

/-- Exit pattern 2: `path leads ` then a cardinal direction. -/
def tryExit2 (l : List Char) : Option (Nat × List Char) :=
  if (cs "path leads ").isPrefixOf l then
    (firstPrefixOf (altsOf cardinal4) (l.drop 11)).map (fun w => (11 + w.length, w))
  else none

/-- Exit pattern 3: `door to the ` then a cardinal direction. -/
def tryExit3 (l : List Char) : Option (Nat × List Char) :=
  if (cs "door to the ").isPrefixOf l then
    (firstPrefixOf (altsOf cardinal4) (l.drop 12)).map (fun w => (12 + w.length, w))
  else none

/-- Exit pattern 4: `exit `, optionally `to the `, then a direction. -/
def tryExit4 (l : List Char) : Option (Nat × List Char) :=
  if (cs "exit ").isPrefixOf l then
    if (cs "to the ").isPrefixOf (l.drop 5) then
      match firstPrefixOf (altsOf dirWords6) ((l.drop 5).drop 7) with
      | some w => some (12 + w.length, w)
      | none => (firstPrefixOf (altsOf dirWords6) (l.drop 5)).map (fun w => (5 + w.length, w))
    else (firstPrefixOf (altsOf dirWords6) (l.drop 5)).map (fun w => (5 + w.length, w))
  else none

/-- Model of `match[1].toUpperCase().charAt(0)` on a capture. -/
def capToDir (g : List Char) : String := String.mk ((g.map Char.toUpper).take 1)

/-- The exit-extraction loop of `extractState` (lines 130-144):
run the four patterns in order and collect deduplicated first letters. -/
def exitsOf (ft : List Char) : List String :=
  (scanCaps tryExit1 ft.length ft ++ scanCaps tryExit2 ft.length ft
      ++ scanCaps tryExit3 ft.length ft ++ scanCaps tryExit4 ft.length ft).foldl
    (fun acc g => if acc.contains (capToDir g) then acc else acc ++ [capToDir g]) []

def objPhrases : List (List Char) := altsOf ["there is ", "you see ", "here is "]

def articles4 : List (List Char) := altsOf ["a ", "an ", "the ", "some "]

def articles3 : List (List Char) := altsOf ["a ", "an ", "the "]

/-- The noun alternation of object pattern 2, in source order. -/
def nounAlts : List (List Char) := altsOf
  ["mailbox", "door", "house", "window", "mat", "lamp", "sword", "knife",
   "bag", "bottle", "key", "rope", "lantern", "egg", "nest", "painting",
   "trophy", "chalice", "bar", "torch", "candle", "coffin", "book",
   "scroll", "leaflet", "sack", "jewels", "treasure", "coin", "diamond",
   "emerald", "ruby", "sapphire", "pearl", "figurine", "trident",
   "crystal", "jade", "ivory", "gold", "silver", "brass", "bronze",
   "platinum", "scarab", "bauble", "pot", "vase", "chest", "box", "case",
   "pile", "stack", "bundle", "heap", "crown", "scepter", "ring",
   "bracelet", "necklace", "pendant", "amulet", "talisman"]

/-- Greedy capture of one lowercase word optionally followed by a
space and a second word (`[a-z]+(?: [a-z]+)?`). -/
def capWord12 (l : List Char) : Option (List Char) :=
  let w1 := l.takeWhile isLowerAlpha
  if w1.isEmpty then none
  else match l.drop w1.length with
    | ' ' :: r2 =>
      let w2 := r2.takeWhile isLowerAlpha
      if w2.isEmpty then some w1 else some (w1 ++ ' ' :: w2)
    | _ => some w1

/-- Object pattern 1: a sighting phrase, an optional article, then a
one-or-two-word capture.  The article alternation backtracks to the
empty branch when no capture follows it. -/
def tryObj1 (l : List Char) : Option (Nat × List Char) :=
  match objPhrases.find? (fun p => p.isPrefixOf l) with
  | none => none
  | some p =>
    let r := l.drop p.length
    match articles4.find? (fun a => a.isPrefixOf r && (capWord12 (r.drop a.length)).isSome) with
    | some a => (capWord12 (r.drop a.length)).map (fun g => (p.length + a.length + g.length, g))
    | none => (capWord12 r).map (fun g => (p.length + g.length, g))

/-- Capture of `[a-z]+ ` followed by a known noun (`[a-z]+ (mailbox|...)`). -/
def capNoun (r : List Char) : Option (List Char) :=
  let w1 := r.takeWhile isLowerAlpha
  if w1.isEmpty then none
  else match r.drop w1.length with
    | ' ' :: r2 => (firstPrefixOf nounAlts r2).map (fun n => w1 ++ ' ' :: n)
    | _ => none

/-- Object pattern 2: an article then an adjective-noun pair. -/
def tryObj2 (l : List Char) : Option (Nat × List Char) :=
  match articles3.find? (fun a => a.isPrefixOf l && (capNoun (l.drop a.length)).isSome) with
  | some a => (capNoun (l.drop a.length)).map (fun g => (a.length + g.length, g))
  | none => none

/-- The visible-object loop of `extractState` (lines 147-161). -/
def objectsOf (ft : List Char) : List String :=
  let caps := scanCaps tryObj1 ft.length ft ++ scanCaps tryObj2 ft.length ft
  caps.foldl (fun acc g =>
    let obj := trimS (String.mk (g.map Char.toUpper))
    if obj.length > 2 && !acc.contains obj then acc ++ [obj] else acc) []

/-- The notable-clue tests of `extractState` (lines 164-170). -/
def cluesOf (ft : List Char) : List String :=
  (if containsAny ft ["locked"] then ["locked door or container"] else []) ++
  (if containsAny ft ["closed"] then ["closed container"] else []) ++
  (if containsAny ft ["dark", "darkness"] then ["area is dark - need light"] else []) ++
  (if containsAny ft ["dangerous", "grue", "eaten"] then ["danger nearby"] else []) ++
  (if containsAny ft ["treasure", "valuable", "precious", "jewel"] then ["treasure nearby"] else []) ++
  (if containsAny ft ["inscription", "writing", "carved", "engraved", "written"]
   then ["something to read"] else [])

/-- Model of `score:` followed by optional whitespace and digits. -/
def tryScoreKey (l : List Char) : Option Nat :=
  if (cs "score:").isPrefixOf l then
    let ds := ((l.drop 6).dropWhile isWS).takeWhile isDigitCh
    if ds.isEmpty then none else some (digitsToNat ds)
  else none

/-- Digits followed by optional whitespace and `points` or `score`. -/
def tryScoreNum (l : List Char) : Option Nat :=
  let ds := l.takeWhile isDigitCh
  if ds.isEmpty then none
  else
    let r := (l.drop ds.length).dropWhile isWS
    if (cs "points").isPrefixOf r || (cs "score").isPrefixOf r then
      some (digitsToNat ds)
    else none

def scoreOf (ft : List Char) : Option Nat :=
  match scanFirst tryScoreKey ft with
  | some n => some n
  | none => scanFirst tryScoreNum ft

/-- Model of `moves?:` followed by optional whitespace and digits. -/
def tryMovesKey (l : List Char) : Option Nat :=
  if (cs "moves:").isPrefixOf l then
    let ds := ((l.drop 6).dropWhile isWS).takeWhile isDigitCh
    if ds.isEmpty then none else some (digitsToNat ds)
  else if (cs "move:").isPrefixOf l then
    let ds := ((l.drop 5).dropWhile isWS).takeWhile isDigitCh
    if ds.isEmpty then none else some (digitsToNat ds)
  else none

/-- Digits followed by optional whitespace and `move` (the optional
trailing `s` never affects acceptance). -/
def tryMovesNum (l : List Char) : Option Nat :=
  let ds := l.takeWhile isDigitCh
  if ds.isEmpty then none
  else if (cs "move").isPrefixOf ((l.drop ds.length).dropWhile isWS) then
    some (digitsToNat ds)
  else none

def movesOf (ft : List Char) : Option Nat :=
  match scanFirst tryMovesKey ft with
  | some n => some n
  | none => scanFirst tryMovesNum ft

/-! ## `extractState` -/

/-- The non-empty trimmed-relevant lines of the output (line 106). -/
def linesOf (gameOutput : String) : List (List Char) :=
  (splitCh '\n' (trimCh (cs gameOutput))).filter (fun l => !(trimCh l).isEmpty)

/-- Room-name detection of `extractState` (lines 111-124): the detected
room together with the index the remaining parse starts from. -/
def roomIdxOf (lastSt : Option GameState) (gameOutput : String) : String × Nat :=
  let prevRoom := match lastSt with | some s => s.currentRoom | none => "Unknown"
  match linesOf gameOutput with
  | [] => (prevRoom, 0)
  | first :: _ =>
    let fl := trimCh first
    if fl.length < 50 && !containsAny (lowerCh fl) extractRoomFail
        && !((cs ">").isPrefixOf fl)
        && (match fl with | c :: _ => decide ('A' ≤ c ∧ c ≤ 'Z') | [] => false)
    then (String.mk fl, 1) else (prevRoom, 0)

/-- The joined lowercased text scanned by the extraction patterns. -/
def fullTextOf (lastSt : Option GameState) (gameOutput : String) : List Char :=
  lowerCh (List.intercalate [' ']
    ((linesOf gameOutput).drop (roomIdxOf lastSt gameOutput).2))

/-- Model of `extractState` as a pure function of the previous `lastState`. -/
def extractStateCore (lastSt : Option GameState) (gameOutput : String) : GameState :=
  let ft := fullTextOf lastSt gameOutput
  let exits := exitsOf ft
  { currentRoom := (roomIdxOf lastSt gameOutput).1
    exits := if exits.isEmpty then ["N", "S", "E", "W"] else exits
    visibleObjects := objectsOf ft
    inventory := match lastSt with | some s => s.inventory | none => []
    score := scoreOf ft
    moves := movesOf ft
    notableClues := cluesOf ft }

/-- The public `extractState`, which also stores the new state and the
raw output on the instance. -/
def extractState (mem : ZorkMemory) (gameOutput : String) : GameState × ZorkMemory :=
  let st := extractStateCore mem.lastState gameOutput
  (st, { mem with lastState := some st, lastGameOutput := gameOutput })

/-! ## `updateAfterCommand` and the long-term memory updates -/

/-- The outcome classification of `updateAfterCommand` (lines 204-218). -/
def classifyResult (prevState : Option GameState) (command gameOutput : String)
    (newRoom : String) : RType :=
  let lowOut := lowerCh (cs gameOutput)
  if containsAny lowOut updateFailAlts then .failure
  else if (match prevState with
           | some p => newRoom != p.currentRoom
           | none => false) then .progress
  else if startsWithS command "TAKE" && containsAny lowOut ["taken", "you have"] then .progress
  else if startsWithS command "OPEN" && containsAny lowOut ["opens", "opened", "opening"] then .progress
  else if command == "LOOK" || command == "INVENTORY" || startsWithS command "EXAMINE" then .progress
  else .nochange

/-- The forbidden-command decay loop (lines 242-248): entries at one
turn or below are evicted, the rest are decremented. -/
def decayForbidden (m : List (String × Int)) : List (String × Int) :=
  m.filterMap (fun e => if e.2 ≤ 1 then none else some (e.1, e.2 - 1))

/-- Model of `updateRoomInfo` (lines 274-325). -/
def updateRoomInfo (lt : LongTermMemory) (state : GameState) (lastCommand : String) :
    LongTermMemory :=
  let room0 :=
    match roomsLookup lt.rooms state.currentRoom with
    | some r => r
    | none =>
      { name := state.currentRoom
        exits := state.exits
        triedExits := []
        objects := state.visibleObjects
        examinedObjects := []
        takenObjects := []
        description := none
        visitCount := 0 }
  let room1 := { room0 with visitCount := room0.visitCount + 1 }
  let room2 := { room1 with exits := listMerge room1.exits state.exits }
  let room3 := { room2 with objects := listMerge room2.objects state.visibleObjects }
  let ooi := state.visibleObjects.foldl (fun m o => ooiSet m o state.currentRoom)
      lt.objectsOfInterest
  let cmdUpper := toUpperS lastCommand
  let room4 :=
    if movementCommands.contains cmdUpper || directionMapKeys.contains cmdUpper then
      { room3 with triedExits := setAdd room3.triedExits (String.mk ((cs cmdUpper).take 1)) }
    else room3
  let room5 :=
    if startsWithS cmdUpper "EXAMINE " then
      let o := trimS (String.mk ((cs cmdUpper).drop 8))
      { room4 with examinedObjects := setAdd room4.examinedObjects o }
    else if startsWithS cmdUpper "X " then
      let o := trimS (String.mk ((cs cmdUpper).drop 2))
      { room4 with examinedObjects := setAdd room4.examinedObjects o }
    else room4
  let room6 :=
    if startsWithS cmdUpper "TAKE " then
      let o := trimS (String.mk (dropFirstOcc (cs "TAKE ") (cs cmdUpper)))
      { room5 with takenObjects := setAdd room5.takenObjects o }
    else room5
  { lt with rooms := roomsSet lt.rooms state.currentRoom room6, objectsOfInterest := ooi }

/-- Model of `hasLead` (lines 358-360). -/
def hasLead (leads : List UnresolvedLead) (room type : String) : Bool :=
  leads.any (fun l => l.room == room && l.type == type)

/-- The `closed (mailbox|chest|box|door|case|container)` test. -/
def hasClosedContainer (text : List Char) : Bool :=
  (scanFirst (fun l =>
    if (cs "closed ").isPrefixOf l then
      match firstPrefixOf (altsOf ["mailbox", "chest", "box", "door", "case", "container"])
          (l.drop 7) with
      | some _ => some ()
      | none => none
    else none) text).isSome

/-- Leads-list part of `detectLeads` (lines 330-356): at most one lead
per (room, type) is inserted, each push guarded by `hasLead` against the
live list. -/
def detectLeadsList (leads : List UnresolvedLead) (room : String) (text : List Char) :
    List UnresolvedLead :=
  let l1 :=
    if isSubstr (cs "locked") text && !hasLead leads room "locked" then
      leads ++ [{ room := room, description := "Locked door or container", type := "locked" }]
    else leads
  let l2 :=
    if hasClosedContainer text && !hasLead l1 room "container" then
      l1 ++ [{ room := room, description := "Closed container to open", type := "container" }]
    else l1
  let l3 :=
    if containsAny text ["puzzle", "mechanism", "lever", "button", "switch"]
        && !hasLead l2 room "puzzle" then
      l2 ++ [{ room := room, description := "Puzzle or mechanism to solve", type := "puzzle" }]
    else l2
  l3

/-- Model of `detectLeads` (lines 330-356). -/
def detectLeads (lt : LongTermMemory) (state : GameState) (gameOutput : String) :
    LongTermMemory :=
  { lt with unresolvedLeads :=
      detectLeadsList lt.unresolvedLeads state.currentRoom (lowerCh (cs gameOutput)) }

/-- Model of `resolveLead` (lines 365-369). -/
def resolveLead (mem : ZorkMemory) (room type : String) : ZorkMemory :=
  let keep := mem.longTerm.unresolvedLeads.filter (fun l => !(l.room == room && l.type == type))
  { mem with longTerm := { mem.longTerm with unresolvedLeads := keep } }

/-- Model of `updateAfterCommand` (lines 199-269), as a pure state transformer. -/
def updateAfterCommand (mem : ZorkMemory) (command gameOutput : String)
    (prevState : Option GameState) : ZorkMemory :=
  let turn := mem.currentTurn + 1
  let stm := mem.shortTerm
  let newState0 := extractStateCore mem.lastState gameOutput
  let result := classifyResult prevState command gameOutput newState0.currentRoom
  let cmds0 := stm.lastCommands ++ [{ command := command, result := result, turn := turn }]
  let cmds := if cmds0.length > 10 then cmds0.drop 1 else cmds0
  let noChange := if result = .nochange || result = .failure then stm.noChangeTurns + 1 else 0
  let stuck :=
    if (result = .nochange || result = .failure) && noChange ≥ 3 then stm.stuckCount + 1
    else stm.stuckCount
  let forb1 := if result = .failure then mapSet stm.forbiddenCommands command 10
               else stm.forbiddenCommands
  let forb2 := decayForbidden forb1
  let lt1 := updateRoomInfo mem.longTerm newState0 command
  let takeHit := startsWithS command "TAKE" && result = .progress
  let dropHit := startsWithS command "DROP" && result = .progress
  let gi1 :=
    if takeHit then
      setAdd lt1.globalInventory (trimS (String.mk (dropFirstOcc (cs "TAKE ") (cs command))))
    else lt1.globalInventory
  let gi2 :=
    if dropHit then
      gi1.filter (fun x => x != trimS (String.mk (dropFirstOcc (cs "DROP ") (cs command))))
    else gi1
  let newState1 := if takeHit then { newState0 with inventory := gi1 } else newState0
  let newState2 := if dropHit then { newState1 with inventory := gi2 } else newState1
  let lt2 := detectLeads { lt1 with globalInventory := gi2 } newState2 gameOutput
  { shortTerm :=
      { stm with lastCommands := cmds, stuckCount := stuck,
                 forbiddenCommands := forb2, noChangeTurns := noChange }
    longTerm := lt2
    currentTurn := turn
    lastGameOutput := gameOutput
    lastState := some newState2 }

/-- Model of `forbidCommand` (lines 469-471); the source default for `turns` is 6. -/
def forbidCommand (mem : ZorkMemory) (command : String) (turns : Int) : ZorkMemory :=
  { mem with shortTerm := { mem.shortTerm with
      forbiddenCommands := mapSet mem.shortTerm.forbiddenCommands command turns } }

/-- Model of `isForbidden` (lines 462-464). -/
def isForbidden (mem : ZorkMemory) (command : String) : Bool :=
  mapHas mem.shortTerm.forbiddenCommands command

/-- Model of `getState` (lines 610-612). -/
def getState (mem : ZorkMemory) : Option GameState := mem.lastState

/-! ## Loop detection -/

/-- Model of `Array.prototype.slice(-n)`. -/
def takeLast {α : Type} (n : Nat) (l : List α) : List α := l.drop (l.length - n)

/-- The repeat scan of `detectLoops` (lines 378-387): walk the window
from the end and return the command of the latest adjacent equal pair. -/
def lastRepeat : List CommandResult → Option String
  | a :: b :: t =>
    match lastRepeat (b :: t) with
    | some s => some s
    | none => if a.command == b.command then some b.command else none
  | _ => none

/-- The result record of `detectLoops`. -/
structure LoopDetection where
  isLooping : Bool
  pattern : Option String
  suggestion : String
deriving DecidableEq, Repr

/-- The final stuck check of `detectLoops` (lines 403-411). -/
def detectStuck (noChangeTurns : Nat) : LoopDetection :=
  if noChangeTurns ≥ 3 then
    { isLooping := true, pattern := some "stuck",
      suggestion := "Multiple turns with no progress - try LOOK, INVENTORY, or explore new exit" }
  else { isLooping := false, pattern := none, suggestion := "" }

/-- Model of `detectLoops` (lines 374-412). -/
def detectLoops (mem : ZorkMemory) : LoopDetection :=
  let cmds := takeLast 6 mem.shortTerm.lastCommands
  match lastRepeat cmds with
  | some c =>
    { isLooping := true, pattern := some "repeat",
      suggestion := "Command \"" ++ c ++ "\" repeated - try something different" }
  | none =>
    match takeLast 4 cmds with
    | [a, b, c2, d] =>
      if a.command == c2.command && b.command == d.command && a.command != b.command then
        { isLooping := true, pattern := some "alternation",
          suggestion := "Alternating " ++ a.command ++ "/" ++ b.command ++ " - break the pattern" }
      else detectStuck mem.shortTerm.noChangeTurns
    | _ => detectStuck mem.shortTerm.noChangeTurns

/-! ## Derived views used by the policy -/

/-- Model of `getUntriedExits` (lines 417-424). -/
def getUntriedExits (mem : ZorkMemory) : List String :=
  match mem.lastState with
  | none => []
  | some st =>
    match roomsLookup mem.longTerm.rooms st.currentRoom with
    | none => st.exits
    | some room => room.exits.filter (fun e => !room.triedExits.contains e)

/-- Model of `getUnexaminedObjects` (lines 429-436). -/
def getUnexaminedObjects (mem : ZorkMemory) : List String :=
  match mem.lastState with
  | none => []
  | some st =>
    match roomsLookup mem.longTerm.rooms st.currentRoom with
    | none => st.visibleObjects
    | some room => room.objects.filter (fun o =>
        !room.examinedObjects.contains o && !room.takenObjects.contains o)

/-- Model of `getCurrentRoomLeads` (lines 441-444). -/
def getCurrentRoomLeads (mem : ZorkMemory) : List UnresolvedLead :=
  match mem.lastState with
  | none => []
  | some st => mem.longTerm.unresolvedLeads.filter (fun l => l.room == st.currentRoom)

/-! ## `ZorkPolicy` -/

/-- Model of `ActionCandidate`. -/
structure ActionCandidate where
  command : String
  score : Int
  reason : String
deriving DecidableEq, Repr

/-- The `MOVEMENT` list of `ZorkPolicy.ts`. -/
def MOVEMENT : List String :=
  ["N", "S", "E", "W", "NE", "NW", "SE", "SW", "UP", "DOWN"]

/-- Model of `actionsForLead` (lines 160-214). -/
def actionsForLead (lead : UnresolvedLead) (state : GameState) : List String :=
  if lead.type == "locked" then
    (state.inventory.filter (fun i => isSubstr (cs "key") (lowerCh (cs i)))).map
      (fun i => "UNLOCK DOOR WITH " ++ i) ++ ["OPEN DOOR"]
  else if lead.type == "container" then
    state.visibleObjects.flatMap (fun o =>
      if containsAny (lowerCh (cs o)) ["mailbox", "chest", "box", "case", "bag", "sack"] then
        ["OPEN " ++ o, "EXAMINE " ++ o]
      else [])
  else if lead.type == "puzzle" then
    state.visibleObjects.flatMap (fun o =>
      ["EXAMINE " ++ o, "PUSH " ++ o, "PULL " ++ o, "MOVE " ++ o])
  else if lead.type == "hazard" then
    "LOOK" :: (state.inventory.filter
        (fun i => containsAny (lowerCh (cs i)) ["lamp", "lantern", "torch", "light"])).map
      (fun i => "TURN ON " ++ i)
  else if lead.type == "notable" then
    state.visibleObjects.flatMap (fun o => ["EXAMINE " ++ o, "READ " ++ o])
  else []

/-- Stable insertion into a list sorted by descending score; equal
scores keep their original order, as the JS stable sort does. -/
def insertDesc (x : ActionCandidate) : List ActionCandidate → List ActionCandidate
  | [] => [x]
  | y :: t => if y.score > x.score then y :: insertDesc x t else x :: y :: t

/-- Model of `candidates.sort((a, b) => b.score - a.score)`: stable descending. -/
def sortDesc : List ActionCandidate → List ActionCandidate
  | [] => []
  | x :: t => insertDesc x (sortDesc t)

/-- The loop-boost pass of `generateCandidates` (lines 123-132). -/
def loopBoost (untried : List String) (c : ActionCandidate) : ActionCandidate :=
  let c1 :=
    if c.command == "LOOK" || c.command == "INVENTORY" then
      { c with score := c.score + 2 }
    else c
  if untried.contains c1.command then { c1 with score := c1.score + 1 } else c1

/-- Candidate construction of `generateCandidates` (lines 41-112):
the five push groups, in source order, each push guarded by the
forbidden filter. -/
def candidatesBase (mem : ZorkMemory) (state : GameState) : List ActionCandidate :=
    let leads := getCurrentRoomLeads mem
    let untriedExits := getUntriedExits mem
    let unexamined := getUnexaminedObjects mem
    let leadCands := leads.flatMap (fun lead =>
      ((actionsForLead lead state).filter (fun a => !isForbidden mem a)).map
        (fun a => { command := a, score := 3,
                    reason := "Unresolved lead: " ++ lead.description : ActionCandidate }))
    let objCands := unexamined.flatMap (fun obj =>
      (if !isForbidden mem ("EXAMINE " ++ obj) then
          [{ command := "EXAMINE " ++ obj, score := 2,
             reason := "Unexamined object: " ++ obj : ActionCandidate }]
        else []) ++
      (if !isForbidden mem ("TAKE " ++ obj) then
          [{ command := "TAKE " ++ obj, score := 2,
             reason := "Object to collect: " ++ obj : ActionCandidate }]
        else []))
    let exitCands := (untriedExits.filter (fun e => !isForbidden mem e)).map
      (fun e => { command := e, score := 2, reason := "Untried exit: " ++ e : ActionCandidate })
    let infoCands :=
      (if !isForbidden mem "LOOK" then
          [{ command := "LOOK", score := 1,
             reason := "Gather information about surroundings" : ActionCandidate }]
        else []) ++
      (if !isForbidden mem "INVENTORY" then
          [{ command := "INVENTORY", score := 1,
             reason := "Check what you are carrying" : ActionCandidate }]
        else [])
    let fallbackCands := (MOVEMENT.filter
        (fun e => !untriedExits.contains e && !isForbidden mem e)).map
      (fun e => { command := e, score := 0,
                  reason := "Previously tried exit: " ++ e : ActionCandidate })
    leadCands ++ objCands ++ exitCands ++ infoCands ++ fallbackCands

/-- Model of `generateCandidates` (lines 31-136): guarded pushes, the
defensive forbidden penalty, the loop boost, then the stable sort. -/
def generateCandidates (mem : ZorkMemory) : List ActionCandidate :=
  match getState mem with
  | none => []
  | some state =>
    let untriedExits := getUntriedExits mem
    let base := candidatesBase mem state
    let penalized := base.map (fun c =>
      if isForbidden mem c.command then { c with score := c.score - 5 } else c)
    let boosted :=
      if (detectLoops mem).isLooping then penalized.map (loopBoost untriedExits) else penalized
    sortDesc boosted

/-- Model of `getBestAction` (lines 141-147). -/
def getBestAction (mem : ZorkMemory) : Option ActionCandidate :=
  (generateCandidates mem).head?

/-- The result record of `validateCommand`. -/
structure ValidationResult where
  valid : Bool
  adjusted : String
  reason : String
deriving DecidableEq, Repr

/-- Model of `best?.command || 'LOOK'`. -/
def bestOrLook (mem : ZorkMemory) : String :=
  match getBestAction mem with
  | some b => b.command
  | none => "LOOK"

/-- The known-bad-pattern regex of `validateCommand` (line 234):
`^(LOOK\s+(UP|DOWN|NORTH|SOUTH|EAST|WEST|N|S|E|W)|GO\s|WEST OF|NORTH OF|SOUTH OF|EAST OF|MOVE (NORTH|SOUTH|EAST|WEST|N|S|E|W))/i`,
tested against the already-uppercased command. -/
def badPattern (s : String) : Bool :=
  let l := cs s
  (if (cs "LOOK").isPrefixOf l then
    let r := l.drop 4
    let ws := r.takeWhile isWS
    decide (1 ≤ ws.length) &&
      (firstPrefixOf (altsOf ["UP", "DOWN", "NORTH", "SOUTH", "EAST", "WEST", "N", "S", "E", "W"])
        (r.drop ws.length)).isSome
  else false) ||
  (match l with
   | 'G' :: 'O' :: c :: _ => isWS c
   | _ => false) ||
  (altsOf ["WEST OF", "NORTH OF", "SOUTH OF", "EAST OF"]).any (fun p => p.isPrefixOf l) ||
  ((cs "MOVE ").isPrefixOf l &&
    (firstPrefixOf (altsOf ["NORTH", "SOUTH", "EAST", "WEST", "N", "S", "E", "W"])
      (l.drop 5)).isSome)

/-- Model of `validateCommand` (lines 220-255). -/
def validateCommand (mem : ZorkMemory) (command : String) : ValidationResult :=
  let upperCmd := trimS (toUpperS command)
  if isForbidden mem upperCmd then
    let best := bestOrLook mem
    { valid := false, adjusted := best,
      reason := "\"" ++ upperCmd ++ "\" is forbidden, using " ++ best ++ " instead" }
  else if badPattern upperCmd then
    let best := bestOrLook mem
    { valid := false, adjusted := best,
      reason := "\"" ++ upperCmd ++ "\" is an invalid pattern, using " ++ best ++ " instead" }
  else if upperCmd.length > 50 || (splitCh ' ' (cs upperCmd)).length > 6 then
    { valid := false, adjusted := bestOrLook mem,
      reason := "Command too long or complex" }
  else { valid := true, adjusted := upperCmd, reason := "Valid command" }

/-! ## Operation sequences over the memory -/

/-- One external call to the memory: either `updateAfterCommand` or
`resolveLead` (the two operations that touch the leads list). -/
inductive MemOp where
  | update (cmd out : String) (prev : Option GameState)
  | resolve (room type : String)

/-- Apply one operation. -/
def applyOp (mem : ZorkMemory) : MemOp → ZorkMemory
  | .update cmd out prev => updateAfterCommand mem cmd out prev
  | .resolve room type => resolveLead mem room type

/-- Run a sequence of operations. -/
def runOps (mem : ZorkMemory) (ops : List MemOp) : ZorkMemory :=
  ops.foldl applyOp mem

/-- One recorded `updateAfterCommand` call. -/
structure UpdateCall where
  cmd : String
  out : String
  prev : Option GameState

/-- Run a sequence of `updateAfterCommand` calls. -/
def runUpdates (mem : ZorkMemory) : List UpdateCall → ZorkMemory
  | [] => mem
  | s :: rest => runUpdates (updateAfterCommand mem s.cmd s.out s.prev) rest

/-- A sequence of calls none of which is a failing occurrence of the
command `c` itself (so nothing re-inserts `c` into the forbidden map). -/
def benignFor (c : String) (steps : List UpdateCall) : Bool :=
  steps.all (fun s => !(s.cmd == c && containsAny (lowerCh (cs s.out)) updateFailAlts))

/-- At most one unresolved lead per (room, type) pair. -/
def leadsUnique (leads : List UnresolvedLead) : Prop :=
  ∀ r t, (leads.filter (fun l => l.room == r && l.type == t)).length ≤ 1

/-! ## Concrete states and runs used by the claims -/

/-- A game output containing the phrase `You don`+`t have a mailbox`. -/
def outNoMailbox : String := "You don" ++ apo ++ "t have a mailbox."

/-- A game output matching the failure keyword `can`+`t`. -/
def outCant : String := "You can" ++ apo ++ "t do that."

/-- Memory after a single failing command. -/
def failMem : ZorkMemory := updateAfterCommand initMemory "OPEN DOOR" outCant none

/-- A benign follow-up turn: the command `Z` with an output that is not
a room name, matches no failure keyword, and mentions no direction. -/
def benignStep (m : ZorkMemory) : ZorkMemory := updateAfterCommand m "Z" "z" none

/-- Iterated benign turns after the failure. -/
def iterBenign : Nat → ZorkMemory
  | 0 => failMem
  | n + 1 => benignStep (iterBenign n)

/-- Memory after a successful `TAKE LAMP` from the initial state. -/
def takeMemEx : ZorkMemory := updateAfterCommand initMemory "TAKE LAMP" "Taken." none

/-- Memory after a subsequent `DROP LAMP` whose output is a lowercase
success echo (no failure keyword, parsed room unchanged). -/
def dropMemEx : ZorkMemory :=
  updateAfterCommand takeMemEx "DROP LAMP" "dropped." takeMemEx.lastState

/-- The `lastState` stored by `takeMemEx` (the output `Taken.` is
misparsed as a room name; the inventory already holds the lamp). -/
def stateTakenEx : GameState :=
  { currentRoom := "Taken."
    exits := ["N", "S", "E", "W"]
    visibleObjects := []
    inventory := ["LAMP"]
    score := none
    moves := none
    notableClues := [] }

/-- The `West of House` room of scenario A: `MAILBOX` newly seen,
exits `N`/`S` untried, nothing examined or taken. -/
def roomWoH : RoomInfo :=
  { name := "West of House"
    exits := ["N", "S"]
    triedExits := []
    objects := ["MAILBOX"]
    examinedObjects := []
    takenObjects := []
    description := none
    visitCount := 1 }

/-- The extracted state of scenario A. -/
def stateWoH : GameState :=
  { currentRoom := "West of House"
    exits := ["N", "S"]
    visibleObjects := ["MAILBOX"]
    inventory := []
    score := none
    moves := none
    notableClues := [] }

/-- The scenario-A memory: current room `West of House`, one visible
unexamined object, untried exits `N` and `S`, no leads, nothing
forbidden, empty command window (so no loop). -/
def memWoH : ZorkMemory :=
  { initMemory with
    longTerm := { initMemory.longTerm with rooms := [("West of House", roomWoH)] }
    lastState := some stateWoH }

/-- A command-result entry of the rolling window. -/
def mkCR (c : String) (t : Nat) : CommandResult :=
  { command := c, result := .nochange, turn := t }

/-- A memory whose command history is `N, S, N, S`. -/
def memNSNS : ZorkMemory :=
  { initMemory with shortTerm := { initMemory.shortTerm with
      lastCommands := [mkCR "N" 1, mkCR "S" 2, mkCR "N" 3, mkCR "S" 4] } }

/-! ## Basic lemmas about the list, map and sort primitives -/

theorem mem_insertDesc {c x : ActionCandidate} {l : List ActionCandidate} :
    c ∈ insertDesc x l ↔ c = x ∨ c ∈ l := by
  induction l with
  | nil => simp [insertDesc]
  | cons y t ih =>
    simp only [insertDesc]
    split
    · simp only [List.mem_cons, ih]
      tauto
    · simp only [List.mem_cons]

theorem mem_sortDesc {c : ActionCandidate} {l : List ActionCandidate} :
    c ∈ sortDesc l ↔ c ∈ l := by
  induction l with
  | nil => simp [sortDesc]
  | cons x t ih => simp [sortDesc, mem_insertDesc, ih]

theorem mem_ite_nil {α : Type} {p : Bool} {l : List α} {c : α} :
    c ∈ (if p then l else []) ↔ p = true ∧ c ∈ l := by
  cases p <;> simp

theorem mem_setAdd_self (s : List String) (x : String) : x ∈ setAdd s x := by
  unfold setAdd
  split
  · rename_i h
    simpa using h
  · simp

theorem loopBoost_command (u : List String) (c : ActionCandidate) :
    (loopBoost u c).command = c.command := by
  simp only [loopBoost]
  split <;> split <;> rfl

theorem assocHas_of_lookup {α : Type} {m : List (String × α)} {k : String} {v : α}
    (h : assocLookup m k = some v) : assocHas m k = true := by
  unfold assocLookup at h
  unfold assocHas
  cases hf : m.find? (fun e => e.1 == k) with
  | none => rw [hf] at h; simp at h
  | some e =>
    have hp := List.find?_some hf
    exact List.any_eq_true.mpr ⟨e, List.mem_of_find?_eq_some hf, hp⟩

theorem mapHas_of_lookup {m : List (String × Int)} {k : String} {n : Int}
    (h : mapLookup m k = some n) : mapHas m k = true :=
  assocHas_of_lookup h

theorem assocLookup_nil {α : Type} (k : String) : assocLookup ([] : List (String × α)) k = none := by
  simp [assocLookup]

theorem assocLookup_cons {α : Type} (e : String × α) (m : List (String × α)) (k : String) :
    assocLookup (e :: m) k = if e.1 == k then some e.2 else assocLookup m k := by
  simp only [assocLookup, List.find?_cons]
  split <;> simp_all

theorem assocLookup_append {α : Type} (m₁ m₂ : List (String × α)) (k : String) :
    assocLookup (m₁ ++ m₂) k =
      match assocLookup m₁ k with
      | some v => some v
      | none => assocLookup m₂ k := by
  induction m₁ with
  | nil => simp [assocLookup_nil]
  | cons e rest ih =>
    rw [List.cons_append, assocLookup_cons, assocLookup_cons]
    split <;> simp [ih]

theorem assocLookup_mapSet_self {α : Type} (m : List (String × α)) (k : String) (v : α)
    (hany : (m.any fun e => e.1 == k) = true) :
    assocLookup (m.map (fun e => if e.1 == k then (k, v) else e)) k = some v := by
  induction m with
  | nil => simp at hany
  | cons e rest ih =>
    rw [List.map_cons]
    by_cases he : (e.1 == k) = true
    · rw [if_pos he, assocLookup_cons]
      simp
    · rw [if_neg he, assocLookup_cons, if_neg he]
      simp only [List.any_cons, Bool.or_eq_true] at hany
      rcases hany with h | h
      · exact absurd h he
      · exact ih h

theorem assocLookup_assocSet_self {α : Type} (m : List (String × α)) (k : String) (v : α) :
    assocLookup (assocSet m k v) k = some v := by
  unfold assocSet
  split
  · exact assocLookup_mapSet_self m k v (by assumption)
  · rw [assocLookup_append]
    rename_i hany
    have hfind : m.find? (fun e => e.1 == k) = none :=
      List.find?_eq_none.mpr (fun x hx hbeq => hany (List.any_eq_true.mpr ⟨x, hx, hbeq⟩))
    have hnone : assocLookup m k = none := by
      unfold assocLookup
      rw [hfind]
      rfl
    rw [hnone]
    simp [assocLookup_cons]

theorem assocLookup_mapSet_ne {α : Type} (m : List (String × α)) (k k' : String) (v : α)
    (hne : k' ≠ k) :
    assocLookup (m.map (fun e => if e.1 == k then (k, v) else e)) k' = assocLookup m k' := by
  have hkk' : ((k : String) == k') = false := beq_eq_false_iff_ne.mpr (fun h => hne h.symm)
  induction m with
  | nil => rfl
  | cons e rest ih =>
    rw [List.map_cons]
    by_cases he : (e.1 == k) = true
    · have he1 : e.1 = k := by simpa using he
      rw [if_pos he, assocLookup_cons, assocLookup_cons]
      rw [show ((k, v).1 == k') = false from hkk']
      rw [show (e.1 == k') = false from by rw [he1]; exact hkk']
      simpa using ih
    · rw [if_neg he, assocLookup_cons, assocLookup_cons]
      by_cases h2 : (e.1 == k') = true
      · rw [if_pos h2, if_pos h2]
      · rw [if_neg h2, if_neg h2]
        exact ih

theorem assocLookup_assocSet_ne {α : Type} (m : List (String × α)) (k k' : String) (v : α)
    (hne : k' ≠ k) : assocLookup (assocSet m k v) k' = assocLookup m k' := by
  unfold assocSet
  split
  · exact assocLookup_mapSet_ne m k k' v hne
  · rw [assocLookup_append]
    have h1 : assocLookup [(k, v)] k' = none := by
      rw [assocLookup_cons]
      rw [show ((k, v).1 == k') = false from beq_eq_false_iff_ne.mpr (fun h => hne h.symm)]
      simp [assocLookup_nil]
    cases h : assocLookup m k' <;> simp [h1]

theorem keysUnique_nil {α : Type} : keysUnique ([] : List (String × α)) := List.Pairwise.nil

theorem keysUnique_assocSet {α : Type} {m : List (String × α)} (k : String) (v : α)
    (hU : keysUnique m) : keysUnique (assocSet m k v) := by
  unfold assocSet
  split
  · unfold keysUnique at *
    rw [List.pairwise_map]
    refine hU.imp_of_mem ?_
    intro a b _ _ hab
    by_cases ha : (a.1 == k) = true <;> by_cases hb : (b.1 == k) = true <;>
      simp_all [beq_iff_eq]
  · unfold keysUnique at *
    rename_i hany
    rw [List.pairwise_append]
    refine ⟨hU, by simp, ?_⟩
    intro a ha b hb
    simp only [List.mem_singleton] at hb
    subst hb
    intro haeq
    exact hany (List.any_eq_true.mpr ⟨a, ha, by simp [haeq]⟩)

theorem decayForbidden_nil : decayForbidden [] = [] := rfl

theorem decayForbidden_cons (e : String × Int) (m : List (String × Int)) :
    decayForbidden (e :: m) =
      if e.2 ≤ 1 then decayForbidden m else (e.1, e.2 - 1) :: decayForbidden m := by
  unfold decayForbidden
  rw [List.filterMap_cons]
  by_cases h : e.2 ≤ 1 <;> simp [h]

theorem mem_decayForbidden {m : List (String × Int)} {e : String × Int}
    (h : e ∈ decayForbidden m) : ∃ e₀ ∈ m, e.1 = e₀.1 ∧ e.2 = e₀.2 - 1 ∧ ¬(e₀.2 ≤ 1) := by
  unfold decayForbidden at h
  rw [List.mem_filterMap] at h
  obtain ⟨e₀, he₀, hf⟩ := h
  revert hf
  split
  · intro hf
    exact absurd hf (by simp)
  · rename_i hgt
    intro hf
    have he := Option.some.inj hf
    refine ⟨e₀, he₀, ?_, ?_, hgt⟩ <;> rw [← he]

theorem keysUnique_decayForbidden {m : List (String × Int)} (hU : keysUnique m) :
    keysUnique (decayForbidden m) := by
  induction m with
  | nil => exact keysUnique_nil
  | cons e rest ih =>
    unfold keysUnique at hU
    rw [List.pairwise_cons] at hU
    rw [decayForbidden_cons]
    split
    · exact ih hU.2
    · unfold keysUnique
      rw [List.pairwise_cons]
      refine ⟨?_, ih hU.2⟩
      intro b hb
      obtain ⟨b₀, hb₀, hfst, _, _⟩ := mem_decayForbidden hb
      show e.1 ≠ b.1
      rw [hfst]
      exact hU.1 b₀ hb₀

theorem assocLookup_decay_unique {m : List (String × Int)} {k : String}
    (hU : keysUnique m) :
    assocLookup (decayForbidden m) k =
      match assocLookup m k with
      | none => none
      | some t => if t ≤ 1 then none else some (t - 1) := by
  induction m with
  | nil => simp [decayForbidden_nil, assocLookup_nil]
  | cons e rest ih =>
    unfold keysUnique at hU
    rw [List.pairwise_cons] at hU
    rw [assocLookup_cons, decayForbidden_cons]
    by_cases he : (e.1 == k) = true
    · have he1 : e.1 = k := by simpa using he
      rw [if_pos he]
      split
      · rename_i hle
        -- the entry is evicted, and no other entry has key k
        have hfind : (decayForbidden rest).find? (fun b => b.1 == k) = none := by
          refine List.find?_eq_none.mpr (fun b hb hbeq => ?_)
          obtain ⟨b₀, hb₀, hfst, _, _⟩ := mem_decayForbidden hb
          have hbk : b₀.1 = k := by rw [← hfst]; simpa using hbeq
          exact hU.1 b₀ hb₀ (by rw [he1, hbk])
        have hnone : assocLookup (decayForbidden rest) k = none := by
          unfold assocLookup
          rw [hfind]
          rfl
        rw [hnone]
        simp [hle]
      · rename_i hgt
        rw [assocLookup_cons]
        simp only [show (((e.1, e.2 - 1) : String × Int).1 == k) = true from he]
        simp [hgt]
    · rw [if_neg he]
      split
      · exact ih hU.2
      · rw [assocLookup_cons]
        simp only [show (((e.1, e.2 - 1) : String × Int).1 == k) = false from by
          simpa using he]
        simp only [Bool.false_eq_true, if_false]
        exact ih hU.2

/-! ## The candidates never mention a forbidden command (claim C1) -/

theorem candidatesBase_not_forbidden (mem : ZorkMemory) (state : GameState) :
    ∀ c ∈ candidatesBase mem state, isForbidden mem c.command = false := by
  intro c hc
  simp only [candidatesBase, List.mem_append] at hc
  rcases hc with (((h | h) | h) | h) | h
  · simp only [List.mem_flatMap, List.mem_map, List.mem_filter] at h
    obtain ⟨lead, _, a, ⟨_, ha⟩, rfl⟩ := h
    simpa using ha
  · simp only [List.mem_flatMap, List.mem_append, mem_ite_nil, List.mem_singleton] at h
    obtain ⟨obj, _, ⟨hg, rfl⟩ | ⟨hg, rfl⟩⟩ := h <;> simpa using hg
  · simp only [List.mem_map, List.mem_filter] at h
    obtain ⟨e, ⟨_, he⟩, rfl⟩ := h
    simpa using he
  · simp only [List.mem_append, mem_ite_nil, List.mem_singleton] at h
    rcases h with ⟨hg, rfl⟩ | ⟨hg, rfl⟩ <;> simpa using hg
  · simp only [List.mem_map, List.mem_filter, Bool.and_eq_true, Bool.not_eq_true'] at h
    obtain ⟨e, ⟨_, _, he⟩, rfl⟩ := h
    exact he

theorem generateCandidates_not_forbidden (mem : ZorkMemory) :
    ∀ c ∈ generateCandidates mem, isForbidden mem c.command = false := by
  intro c hc
  unfold generateCandidates at hc
  cases hst : getState mem with
  | none => rw [hst] at hc; simp at hc
  | some state =>
    rw [hst] at hc
    simp only [mem_sortDesc] at hc
    have hpen : ∀ d ∈ (candidatesBase mem state).map (fun c =>
        if isForbidden mem c.command then { c with score := c.score - 5 } else c),
        isForbidden mem d.command = false := by
      intro d hd
      rcases List.mem_map.mp hd with ⟨d0, hd0, rfl⟩
      have hcmd : (if isForbidden mem d0.command then
          { d0 with score := d0.score - 5 } else d0).command = d0.command := by
        split <;> rfl
      rw [hcmd]
      exact candidatesBase_not_forbidden mem state d0 hd0
    split at hc
    · rcases List.mem_map.mp hc with ⟨d, hd, rfl⟩
      rw [loopBoost_command]
      exact hpen d hd
    · exact hpen c hc

/-- C1: in any memory state, a command present in the forbidden map
with a positive counter never appears among the candidates returned by
`generateCandidates` at all (in particular never with a positive score),
and is never the top candidate returned by `getBestAction`. -/
theorem C1_forbidden_never_candidate (mem : ZorkMemory) (cmd : String) (n : Int)
    (hn : mapLookup mem.shortTerm.forbiddenCommands cmd = some n) (_hpos : 0 < n) :
    (∀ c ∈ generateCandidates mem, c.command ≠ cmd) ∧
    (∀ b, getBestAction mem = some b → b.command ≠ cmd) := by
  have hforb : isForbidden mem cmd = true := mapHas_of_lookup hn
  have hmain : ∀ c ∈ generateCandidates mem, c.command ≠ cmd := by
    intro c hc hceq
    have hfree := generateCandidates_not_forbidden mem c hc
    rw [hceq, hforb] at hfree
    exact Bool.true_eq_false.mp hfree
  refine ⟨hmain, ?_⟩
  intro b hb
  unfold getBestAction at hb
  cases hgen : generateCandidates mem with
  | nil => rw [hgen] at hb; simp at hb
  | cons a t =>
    rw [hgen] at hb
    simp only [List.head?_cons, Option.some.injEq] at hb
    subst hb
    exact hmain a (hgen ▸ List.mem_cons_self a t)

/-- Closed instance of C1: with `TAKE MAILBOX` forbidden for 5 turns in
the scenario-A state, it is absent from the candidate list. -/
theorem C1_forbidden_never_candidate_witness :
    mapLookup (forbidCommand memWoH "TAKE MAILBOX" 5).shortTerm.forbiddenCommands
      "TAKE MAILBOX" = some 5 ∧
    ∀ c ∈ generateCandidates (forbidCommand memWoH "TAKE MAILBOX" 5),
      c.command ≠ "TAKE MAILBOX" := by
  refine ⟨by decide, ?_⟩
  exact (C1_forbidden_never_candidate (forbidCommand memWoH "TAKE MAILBOX" 5)
    "TAKE MAILBOX" 5 (by decide) (by decide)).1

/-! ## Scenario A (claim C7) -/

/-- C7: in the scenario-A state (`West of House`, visible object
`MAILBOX` newly seen, no leads, untried exits `N` and `S`, nothing
forbidden, no loop), `generateCandidates` includes `EXAMINE MAILBOX`
and `TAKE MAILBOX` at score 2 and the exits `N` and `S` at score 2. -/
theorem C7_scenarioA_candidates :
    getCurrentRoomLeads memWoH = [] ∧
    getUntriedExits memWoH = ["N", "S"] ∧
    getUnexaminedObjects memWoH = ["MAILBOX"] ∧
    memWoH.shortTerm.forbiddenCommands = [] ∧
    (detectLoops memWoH).isLooping = false ∧
    ("EXAMINE MAILBOX", (2 : Int)) ∈
      (generateCandidates memWoH).map (fun c => (c.command, c.score)) ∧
    ("TAKE MAILBOX", (2 : Int)) ∈
      (generateCandidates memWoH).map (fun c => (c.command, c.score)) ∧
    ("N", (2 : Int)) ∈ (generateCandidates memWoH).map (fun c => (c.command, c.score)) ∧
    ("S", (2 : Int)) ∈ (generateCandidates memWoH).map (fun c => (c.command, c.score)) := by
  decide

/-! ## Degradation before any state exists (claim C10) -/

/-- C10: while `getState()` is null the policy is total and degrades
safely: no candidates, no best action, and every rejected command is
adjusted to the hard-coded fallback `LOOK`. -/
theorem C10_null_state_safe (mem : ZorkMemory) (h : mem.lastState = none) :
    generateCandidates mem = [] ∧ getBestAction mem = none ∧
    ∀ cmd, (validateCommand mem cmd).valid = false →
      (validateCommand mem cmd).adjusted = "LOOK" := by
  have hgen : generateCandidates mem = [] := by
    unfold generateCandidates getState
    rw [h]
  have hbest : getBestAction mem = none := by
    unfold getBestAction
    rw [hgen]
    rfl
  have hlook : bestOrLook mem = "LOOK" := by
    unfold bestOrLook
    rw [hbest]
  refine ⟨hgen, hbest, ?_⟩
  intro cmd
  simp only [validateCommand]
  split
  · intro _
    exact hlook
  · split
    · intro _
      exact hlook
    · split
      · intro _
        exact hlook
      · intro hv
        simp at hv

/-- Closed instance of C10 at the initial memory and `GO WEST`. -/
theorem C10_null_state_safe_witness :
    initMemory.lastState = none ∧ generateCandidates initMemory = [] ∧
    (validateCommand initMemory "GO WEST").valid = false ∧
    (validateCommand initMemory "GO WEST").adjusted = "LOOK" := by
  have h := C10_null_state_safe initMemory rfl
  exact ⟨rfl, h.1, by decide, h.2.2 "GO WEST" (by decide)⟩

/-! ## Command validation (claim C8) -/

/-- C8: when a best policy candidate exists, `validateCommand "GO WEST"`
rejects with that candidate substituted; in general a command that is
forbidden, matches a known-bad pattern, or exceeds 50 characters or 6
space-separated words is rejected with the best candidate substituted,
and any other command is returned valid as its uppercased trimmed form. -/
theorem C8_validateCommand (mem : ZorkMemory) (b : ActionCandidate)
    (hb : getBestAction mem = some b) :
    ((validateCommand mem "GO WEST").valid = false ∧
      (validateCommand mem "GO WEST").adjusted = b.command) ∧
    ∀ cmd : String,
      ((isForbidden mem (trimS (toUpperS cmd)) = true ∨
          badPattern (trimS (toUpperS cmd)) = true ∨
          50 < (trimS (toUpperS cmd)).length ∨
          6 < (splitCh ' ' (cs (trimS (toUpperS cmd)))).length) →
        (validateCommand mem cmd).valid = false ∧
        (validateCommand mem cmd).adjusted = b.command) ∧
      (isForbidden mem (trimS (toUpperS cmd)) = false →
        badPattern (trimS (toUpperS cmd)) = false →
        (trimS (toUpperS cmd)).length ≤ 50 →
        (splitCh ' ' (cs (trimS (toUpperS cmd)))).length ≤ 6 →
        validateCommand mem cmd =
          { valid := true, adjusted := trimS (toUpperS cmd), reason := "Valid command" }) := by
  have hlook : bestOrLook mem = b.command := by
    unfold bestOrLook
    rw [hb]
  have hrej : ∀ cmd : String,
      (isForbidden mem (trimS (toUpperS cmd)) = true ∨
        badPattern (trimS (toUpperS cmd)) = true ∨
        50 < (trimS (toUpperS cmd)).length ∨
        6 < (splitCh ' ' (cs (trimS (toUpperS cmd)))).length) →
      (validateCommand mem cmd).valid = false ∧
      (validateCommand mem cmd).adjusted = b.command := by
    intro cmd h
    simp only [validateCommand]
    split
    · exact ⟨rfl, hlook⟩
    · split
      · exact ⟨rfl, hlook⟩
      · split
        · exact ⟨rfl, hlook⟩
        · rename_i h1 h2 h3
          exfalso
          rcases h with h | h | h | h
          · exact h1 h
          · exact h2 h
          · exact h3 (by simp [h])
          · exact h3 (by simp [h])
  refine ⟨?_, fun cmd => ⟨hrej cmd, ?_⟩⟩
  · exact hrej "GO WEST" (Or.inr (Or.inl (by decide)))
  · intro h1 h2 h3 h4
    unfold validateCommand
    rw [if_neg (by simp [h1]), if_neg (by simp [h2]),
      if_neg (by simp [Nat.not_lt.mpr h3, Nat.not_lt.mpr h4])]

/-! ## Failure classification and the forbidden-map update (claims C3, C4) -/

theorem classify_failure_iff (prev : Option GameState) (cmd out room : String) :
    classifyResult prev cmd out room = .failure ↔
      containsAny (lowerCh (cs out)) updateFailAlts = true := by
  unfold classifyResult
  constructor
  · intro h
    by_contra hc
    rw [if_neg hc] at h
    split at h
    · exact absurd h (by simp)
    · split at h
      · exact absurd h (by simp)
      · split at h
        · exact absurd h (by simp)
        · split at h
          · exact absurd h (by simp)
          · exact absurd h (by simp)
  · intro h
    rw [if_pos h]

theorem getLast?_capped (l : List CommandResult) (x : CommandResult) :
    (if (l ++ [x]).length > 10 then (l ++ [x]).drop 1 else l ++ [x]).getLast? = some x := by
  split
  · rename_i hlen
    simp only [List.length_append, List.length_singleton] at hlen
    rw [List.drop_append_of_le_length (by omega)]
    exact List.getLast?_concat _
  · exact List.getLast?_concat _

/-- After a failure insertion, the same-call decay leaves the fresh
entry at 9 (this holds for an arbitrary prior map: `set` overwrites
every entry of that key). -/
theorem lookup_decay_set10 (m : List (String × Int)) (cmd : String) :
    assocLookup (decayForbidden (assocSet m cmd 10)) cmd = some 9 := by
  unfold assocSet
  split
  · rename_i hany
    induction m with
    | nil => simp at hany
    | cons e rest ih =>
      rw [List.map_cons]
      by_cases he : (e.1 == cmd) = true
      · rw [if_pos he, decayForbidden_cons]
        rw [if_neg (by norm_num : ¬((cmd, (10 : Int)).2 ≤ 1))]
        rw [assocLookup_cons]
        simp
      · rw [if_neg he, decayForbidden_cons]
        have hrest : (rest.any fun e => e.1 == cmd) = true := by
          simp only [List.any_cons, Bool.or_eq_true] at hany
          rcases hany with h | h
          · exact absurd h he
          · exact h
        split
        · exact ih hrest
        · rw [assocLookup_cons]
          simp only [show (((e.1, e.2 - 1) : String × Int).1 == cmd) = false from by
            simpa using he]
          simp only [Bool.false_eq_true, if_false]
          exact ih hrest
  · rename_i hany
    unfold decayForbidden
    rw [List.filterMap_append]
    rw [assocLookup_append]
    have hnone : assocLookup (List.filterMap
        (fun e => if e.2 ≤ 1 then none else some (e.1, e.2 - 1)) m) cmd = none := by
      have hfind : (List.filterMap
          (fun e => if e.2 ≤ 1 then none else some (e.1, e.2 - 1)) m).find?
            (fun b => b.1 == cmd) = none := by
        refine List.find?_eq_none.mpr (fun b hb hbeq => ?_)
        obtain ⟨b₀, hb₀, hfst, _, _⟩ := mem_decayForbidden (m := m) hb
        exact hany (List.any_eq_true.mpr ⟨b₀, hb₀, by rw [← hfst]; exact hbeq⟩)
      unfold assocLookup
      rw [hfind]
      rfl
    rw [hnone]
    show assocLookup (List.filterMap
      (fun e => if e.2 ≤ 1 then none else some (e.1, e.2 - 1)) [(cmd, 10)]) cmd = some 9
    have hsing : List.filterMap
        (fun e => if e.2 ≤ 1 then none else some (e.1, e.2 - 1)) [(cmd, (10 : Int))] =
        [(cmd, 9)] := by
      rw [List.filterMap_cons]
      norm_num
    rw [hsing, assocLookup_cons]
    simp

theorem update_lastCommands (mem : ZorkMemory) (cmd out : String) (prev : Option GameState) :
    (updateAfterCommand mem cmd out prev).shortTerm.lastCommands =
      (let result := classifyResult prev cmd out (extractStateCore mem.lastState out).currentRoom
       let x : CommandResult := { command := cmd, result := result, turn := mem.currentTurn + 1 }
       if (mem.shortTerm.lastCommands ++ [x]).length > 10 then
         (mem.shortTerm.lastCommands ++ [x]).drop 1
       else mem.shortTerm.lastCommands ++ [x]) := rfl

theorem update_forbidden (mem : ZorkMemory) (cmd out : String) (prev : Option GameState) :
    (updateAfterCommand mem cmd out prev).shortTerm.forbiddenCommands =
      decayForbidden
        (if classifyResult prev cmd out (extractStateCore mem.lastState out).currentRoom
            = .failure
         then mapSet mem.shortTerm.forbiddenCommands cmd 10
         else mem.shortTerm.forbiddenCommands) := rfl

/-- C3 (counterexample): calling `updateAfterCommand` with the command
`OPEN MAILBOX` and an output containing the phrase of the claim records
the outcome as `no-change`, not `failure`, and leaves the forbidden map
without any entry for the command: the phrase matches none of the
failure keywords. -/
theorem C3_counterexample :
    isSubstr (cs ("You don" ++ apo ++ "t have a mailbox")) (cs outNoMailbox) = true ∧
    (updateAfterCommand initMemory "OPEN MAILBOX" outNoMailbox none).shortTerm.lastCommands =
      [{ command := "OPEN MAILBOX", result := .nochange, turn := 1 }] ∧
    mapLookup (updateAfterCommand initMemory "OPEN MAILBOX" outNoMailbox
        none).shortTerm.forbiddenCommands "OPEN MAILBOX" = none := by
  decide

/-- C3 (amended): when the output does match a failure keyword, the
recorded outcome is `failure` and immediately after `updateAfterCommand`
the forbidden map holds the command with counter 9 (it is inserted at 10
and the same call decays it by one). -/
theorem C3_amended (mem : ZorkMemory) (cmd out : String) (prev : Option GameState)
    (h : containsAny (lowerCh (cs out)) updateFailAlts = true) :
    ((updateAfterCommand mem cmd out prev).shortTerm.lastCommands.getLast?).map
        (fun r => (r.command, r.result)) = some (cmd, RType.failure) ∧
    mapLookup (updateAfterCommand mem cmd out prev).shortTerm.forbiddenCommands cmd =
      some 9 := by
  have hres := (classify_failure_iff prev cmd out
    (extractStateCore mem.lastState out).currentRoom).mpr h
  constructor
  · simp only [update_lastCommands, getLast?_capped, Option.map_some']
    rw [hres]
  · rw [update_forbidden, if_pos hres]
    exact lookup_decay_set10 _ _

/-- Closed instance of the amended C3 at a concrete failing command. -/
theorem C3_amended_witness :
    containsAny (lowerCh (cs outCant)) updateFailAlts = true ∧
    (failMem.shortTerm.lastCommands.getLast?).map (fun r => (r.command, r.result)) =
      some ("OPEN DOOR", RType.failure) ∧
    mapLookup failMem.shortTerm.forbiddenCommands "OPEN DOOR" = some 9 := by
  have h := C3_amended initMemory "OPEN DOOR" outCant none (by decide)
  exact ⟨by decide, h.1, h.2⟩

theorem isForbidden_eq_isSome (mem : ZorkMemory) (c : String) :
    isForbidden mem c = (mapLookup mem.shortTerm.forbiddenCommands c).isSome := by
  unfold isForbidden mapHas assocHas mapLookup assocLookup
  cases hf : mem.shortTerm.forbiddenCommands.find? (fun e => e.1 == c) with
  | none =>
    have := List.find?_eq_none.mp hf
    rw [List.any_eq_false.mpr (fun x hx => by simpa using this x hx)]
    rfl
  | some e =>
    have hp := List.find?_some hf
    rw [List.any_eq_true.mpr ⟨e, List.mem_of_find?_eq_some hf, hp⟩]
    rfl

theorem step_keysUnique (mem : ZorkMemory) (cmd out : String) (prev : Option GameState)
    (hU : keysUnique mem.shortTerm.forbiddenCommands) :
    keysUnique (updateAfterCommand mem cmd out prev).shortTerm.forbiddenCommands := by
  rw [update_forbidden]
  apply keysUnique_decayForbidden
  split
  · exact keysUnique_assocSet _ _ hU
  · exact hU

theorem step_forbidden_lookup (mem : ZorkMemory) (cmd out : String) (prev : Option GameState)
    (c : String) (hU : keysUnique mem.shortTerm.forbiddenCommands)
    (hben : ¬(cmd = c ∧ containsAny (lowerCh (cs out)) updateFailAlts = true)) :
    mapLookup (updateAfterCommand mem cmd out prev).shortTerm.forbiddenCommands c =
      match mapLookup mem.shortTerm.forbiddenCommands c with
      | none => none
      | some t => if t ≤ 1 then none else some (t - 1) := by
  rw [update_forbidden]
  by_cases hfail : containsAny (lowerCh (cs out)) updateFailAlts = true
  · have hres := (classify_failure_iff prev cmd out
      (extractStateCore mem.lastState out).currentRoom).mpr hfail
    rw [if_pos hres]
    have hcne : c ≠ cmd := fun hc => hben ⟨hc.symm, hfail⟩
    have hU2 : keysUnique (assocSet mem.shortTerm.forbiddenCommands cmd 10) :=
      keysUnique_assocSet _ _ hU
    show assocLookup (decayForbidden (assocSet mem.shortTerm.forbiddenCommands cmd 10)) c = _
    rw [assocLookup_decay_unique hU2,
      assocLookup_assocSet_ne mem.shortTerm.forbiddenCommands cmd c 10 hcne]
    rfl
  · have hres : classifyResult prev cmd out
        (extractStateCore mem.lastState out).currentRoom ≠ .failure :=
      fun hc => hfail ((classify_failure_iff prev cmd out _).mp hc)
    rw [if_neg hres]
    exact assocLookup_decay_unique hU

theorem run_forbidden_lookup (c : String) (steps : List UpdateCall) :
    ∀ mem : ZorkMemory, keysUnique mem.shortTerm.forbiddenCommands →
      benignFor c steps = true →
      keysUnique (runUpdates mem steps).shortTerm.forbiddenCommands ∧
      mapLookup (runUpdates mem steps).shortTerm.forbiddenCommands c =
        match mapLookup mem.shortTerm.forbiddenCommands c with
        | none => none
        | some t =>
          if (steps.length : Int) < t ∨ steps.length = 0 then some (t - steps.length)
          else none := by
  induction steps with
  | nil =>
    intro mem hU _
    refine ⟨hU, ?_⟩
    rw [show runUpdates mem [] = mem from rfl]
    cases h : mapLookup mem.shortTerm.forbiddenCommands c
    · rfl
    · simp
  | cons s rest ih =>
    intro mem hU hb
    have hb' : (!(s.cmd == c && containsAny (lowerCh (cs s.out)) updateFailAlts)) = true ∧
        benignFor c rest = true := by
      simpa [benignFor] using hb
    have hb1 : ¬(s.cmd = c ∧ containsAny (lowerCh (cs s.out)) updateFailAlts = true) := by
      rintro ⟨h1, h2⟩
      have := hb'.1
      rw [h1, h2] at this
      simp at this
    have hstep := step_forbidden_lookup mem s.cmd s.out s.prev c hU hb1
    have hUstep := step_keysUnique mem s.cmd s.out s.prev hU
    have hrun := ih (updateAfterCommand mem s.cmd s.out s.prev) hUstep hb'.2
    refine ⟨hrun.1, ?_⟩
    rw [show runUpdates mem (s :: rest) =
      runUpdates (updateAfterCommand mem s.cmd s.out s.prev) rest from rfl]
    rw [hrun.2, hstep]
    cases h : mapLookup mem.shortTerm.forbiddenCommands c
    · rfl
    · rename_i t
      by_cases ht : t ≤ 1
      · show (match (if t ≤ 1 then (none : Option Int) else some (t - 1)) with
            | none => none
            | some t' =>
              if (rest.length : Int) < t' ∨ rest.length = 0 then some (t' - rest.length)
              else none) =
          if ((s :: rest).length : Int) < t ∨ (s :: rest).length = 0
          then some (t - (s :: rest).length) else none
        rw [if_pos ht]
        show (none : Option Int) = _
        split_ifs with h1
        · exfalso
          simp only [List.length_cons] at h1
          rcases h1 with h1 | h1
          · push_cast at h1
            omega
          · omega
        · rfl
      · show (match (if t ≤ 1 then (none : Option Int) else some (t - 1)) with
            | none => none
            | some t' =>
              if (rest.length : Int) < t' ∨ rest.length = 0 then some (t' - rest.length)
              else none) =
          if ((s :: rest).length : Int) < t ∨ (s :: rest).length = 0
          then some (t - (s :: rest).length) else none
        rw [if_neg ht]
        show (if (rest.length : Int) < t - 1 ∨ rest.length = 0
            then some (t - 1 - rest.length) else none) =
          if ((s :: rest).length : Int) < t ∨ (s :: rest).length = 0
          then some (t - (s :: rest).length) else none
        simp only [List.length_cons]
        have hlen : ((rest.length + 1 : Nat) : Int) = (rest.length : Int) + 1 := by
          push_cast
          ring
        by_cases hA : (rest.length : Int) < t - 1 ∨ rest.length = 0
        · have hB : ((rest.length + 1 : Nat) : Int) < t ∨ rest.length + 1 = 0 := by
            left
            rw [hlen]
            rcases hA with h | h
            · omega
            · rw [h]
              push_cast
              omega
          rw [if_pos hA, if_pos hB]
          simp only [Option.some.injEq]
          rw [hlen]
          ring
        · have hB : ¬(((rest.length + 1 : Nat) : Int) < t ∨ rest.length + 1 = 0) := by
            rintro (h | h)
            · apply hA
              left
              rw [hlen] at h
              omega
            · omega
          rw [if_neg hA, if_neg hB]

theorem decay_lookup_ge_one (m : List (String × Int)) (k : String) (t : Int)
    (h : assocLookup (decayForbidden m) k = some t) : 1 ≤ t := by
  unfold assocLookup at h
  cases hf : (decayForbidden m).find? (fun e => e.1 == k) with
  | none => rw [hf] at h; exact absurd h (by simp)
  | some e =>
    rw [hf] at h
    have he : e.2 = t := by simpa using h
    obtain ⟨e₀, _, _, hsnd, hgt⟩ := mem_decayForbidden (List.mem_of_find?_eq_some hf)
    omega

/-- C4 (counterexample): `OPEN DOOR` is entered into the forbidden map
by a failure classification (the source inserts it with counter 10), yet
the counter observed right after the inserting call is 9, the command is
still forbidden after 8 further `updateAfterCommand` calls and already
allowed again after 9 — not after 10 as the claim requires. -/
theorem C4_counterexample :
    mapLookup failMem.shortTerm.forbiddenCommands "OPEN DOOR" = some 9 ∧
    isForbidden (iterBenign 8) "OPEN DOOR" = true ∧
    isForbidden (iterBenign 9) "OPEN DOOR" = false := by
  decide

/-- C4 (amended): a command entered by `forbidCommand(c, N)` with
`N > 0` stays forbidden for exactly `N` benign `updateAfterCommand`
calls (counter `N - j` after `j < N` of them) and is allowed again from
the `N`-th call on; a command entered by a failure classification
behaves like `N = 9` (its counter is 10 minus the inserting call's own
decay); and every counter in the map after a call is at least 1, i.e.
entries are evicted as soon as they would reach zero. -/
theorem C4_amended (mem : ZorkMemory) (c : String) (N : Int) (steps : List UpdateCall)
    (hU : keysUnique mem.shortTerm.forbiddenCommands)
    (hb : benignFor c steps = true) :
    (0 < N →
      mapLookup (runUpdates (forbidCommand mem c N) steps).shortTerm.forbiddenCommands c =
        (if (steps.length : Int) < N then some (N - steps.length) else none) ∧
      isForbidden (runUpdates (forbidCommand mem c N) steps) c =
        decide ((steps.length : Int) < N)) ∧
    (∀ out prev, containsAny (lowerCh (cs out)) updateFailAlts = true →
      mapLookup (runUpdates (updateAfterCommand mem c out prev)
          steps).shortTerm.forbiddenCommands c =
        (if (steps.length : Int) < 9 then some (9 - (steps.length : Int)) else none) ∧
      isForbidden (runUpdates (updateAfterCommand mem c out prev) steps) c =
        decide ((steps.length : Int) < 9)) ∧
    (∀ cmd out prev k t,
      mapLookup (updateAfterCommand mem cmd out prev).shortTerm.forbiddenCommands k =
        some t → 1 ≤ t) := by
  refine ⟨?_, ?_, ?_⟩
  · intro hN
    have hU' : keysUnique (forbidCommand mem c N).shortTerm.forbiddenCommands :=
      keysUnique_assocSet _ _ hU
    have hself : mapLookup (forbidCommand mem c N).shortTerm.forbiddenCommands c = some N :=
      assocLookup_assocSet_self _ _ _
    have hrun := (run_forbidden_lookup c steps (forbidCommand mem c N) hU' hb).2
    rw [hself] at hrun
    have hlk : mapLookup (runUpdates (forbidCommand mem c N)
        steps).shortTerm.forbiddenCommands c =
        (if (steps.length : Int) < N then some (N - steps.length) else none) := by
      rw [hrun]
      show (if (steps.length : Int) < N ∨ steps.length = 0
          then some (N - steps.length) else none) = _
      by_cases h1 : (steps.length : Int) < N
      · rw [if_pos (Or.inl h1), if_pos h1]
      · have h0 : ¬((steps.length : Int) < N ∨ steps.length = 0) := by
          rintro (h | h)
          · exact h1 h
          · rw [h] at h1
            push_cast at h1
            omega
        rw [if_neg h0, if_neg h1]
    refine ⟨hlk, ?_⟩
    rw [isForbidden_eq_isSome, hlk]
    split_ifs with h1 <;> simp [h1]
  · intro out prev hfail
    have hres := (classify_failure_iff prev c out
      (extractStateCore mem.lastState out).currentRoom).mpr hfail
    have hself : mapLookup (updateAfterCommand mem c out prev).shortTerm.forbiddenCommands c =
        some 9 := by
      rw [update_forbidden, if_pos hres]
      exact lookup_decay_set10 _ _
    have hU' := step_keysUnique mem c out prev hU
    have hrun := (run_forbidden_lookup c steps _ hU' hb).2
    rw [hself] at hrun
    have hlk : mapLookup (runUpdates (updateAfterCommand mem c out prev)
        steps).shortTerm.forbiddenCommands c =
        (if (steps.length : Int) < 9 then some (9 - (steps.length : Int)) else none) := by
      rw [hrun]
      show (if (steps.length : Int) < 9 ∨ steps.length = 0
          then some (9 - (steps.length : Int)) else none) = _
      by_cases h1 : (steps.length : Int) < 9
      · rw [if_pos (Or.inl h1), if_pos h1]
      · have h0 : ¬((steps.length : Int) < 9 ∨ steps.length = 0) := by
          rintro (h | h)
          · exact h1 h
          · rw [h] at h1
            exact h1 (by norm_num)
        rw [if_neg h0, if_neg h1]
    refine ⟨hlk, ?_⟩
    rw [isForbidden_eq_isSome, hlk]
    split_ifs with h1 <;> simp [h1]
  · intro cmd out prev k t h
    rw [update_forbidden] at h
    exact decay_lookup_ge_one _ k t h

/-- Closed instance of the amended C4: `OPEN DOOR` forbidden for 2
turns is allowed again after exactly 2 benign calls. -/
theorem C4_amended_witness :
    keysUnique initMemory.shortTerm.forbiddenCommands ∧
    benignFor "OPEN DOOR"
      [{ cmd := "Z", out := "z", prev := none }, { cmd := "Z", out := "z", prev := none }] =
      true ∧
    isForbidden (runUpdates (forbidCommand initMemory "OPEN DOOR" 2)
      [{ cmd := "Z", out := "z", prev := none },
       { cmd := "Z", out := "z", prev := none }]) "OPEN DOOR" = false := by
  have h := ((C4_amended initMemory "OPEN DOOR" 2
    [{ cmd := "Z", out := "z", prev := none }, { cmd := "Z", out := "z", prev := none }]
    keysUnique_nil (by decide)).1 (by norm_num)).2
  exact ⟨keysUnique_nil, by decide, by simpa using h⟩

/-! ## Lead uniqueness (claim C5) -/

theorem leadsUnique_filter (p : UnresolvedLead → Bool) {l : List UnresolvedLead}
    (h : leadsUnique l) : leadsUnique (l.filter p) := by
  intro r t
  exact le_trans ((List.filter_sublist l).filter _).length_le (h r t)

theorem hasLead_false_filter {l : List UnresolvedLead} {r t : String}
    (h : hasLead l r t = false) :
    l.filter (fun x => x.room == r && x.type == t) = [] := by
  rw [List.filter_eq_nil_iff]
  intro a ha
  simp only [hasLead, List.any_eq_false] at h
  exact h a ha

theorem leadsUnique_push {l : List UnresolvedLead} {r d t : String}
    (h : leadsUnique l) (hnot : hasLead l r t = false) :
    leadsUnique (l ++ [{ room := r, description := d, type := t }]) := by
  intro r' t'
  rw [List.filter_append, List.length_append]
  by_cases hx : (({ room := r, description := d, type := t } : UnresolvedLead).room == r' &&
      ({ room := r, description := d, type := t } : UnresolvedLead).type == t') = true
  · have hr : r = r' ∧ t = t' := by
      simpa only [Bool.and_eq_true, beq_iff_eq] using hx
    have hempty : l.filter (fun x => x.room == r' && x.type == t') = [] := by
      rw [← hr.1, ← hr.2]
      exact hasLead_false_filter hnot
    rw [hempty]
    simp [List.filter_cons, hx]
  · have hone : List.filter (fun x => x.room == r' && x.type == t')
        [({ room := r, description := d, type := t } : UnresolvedLead)] = [] := by
      simp only [List.filter_cons]
      rw [if_neg hx]
      rfl
    rw [hone]
    simpa using h r' t'

theorem detectLeadsList_unique (leads : List UnresolvedLead) (room : String)
    (text : List Char) (h : leadsUnique leads) :
    leadsUnique (detectLeadsList leads room text) := by
  have step : ∀ (L : List UnresolvedLead) (c : Bool) (d ty : String), leadsUnique L →
      leadsUnique (if c && !hasLead L room ty then
        L ++ [{ room := room, description := d, type := ty }] else L) := by
    intro L c d ty hL
    split
    · rename_i hcond
      simp only [Bool.and_eq_true, Bool.not_eq_true'] at hcond
      exact leadsUnique_push hL hcond.2
    · exact hL
  simp only [detectLeadsList]
  exact step _ _ _ _ (step _ _ _ _ (step _ _ _ _ h))

theorem updateAfterCommand_leads (mem : ZorkMemory) (cmd out : String)
    (prev : Option GameState) :
    ∃ room text, (updateAfterCommand mem cmd out prev).longTerm.unresolvedLeads =
      detectLeadsList mem.longTerm.unresolvedLeads room text :=
  ⟨_, _, rfl⟩

/-- C5: after any sequence of `updateAfterCommand` and `resolveLead`
calls from the initial (or reset) state, the unresolved-leads list holds
at most one lead per (room, type) pair. -/
theorem C5_lead_uniqueness (ops : List MemOp) :
    leadsUnique (runOps initMemory ops).longTerm.unresolvedLeads := by
  have key : ∀ (mem : ZorkMemory) (op : MemOp), leadsUnique mem.longTerm.unresolvedLeads →
      leadsUnique (applyOp mem op).longTerm.unresolvedLeads := by
    intro mem op h
    cases op with
    | update cmd out prev =>
      obtain ⟨room, text, heq⟩ := updateAfterCommand_leads mem cmd out prev
      show leadsUnique (updateAfterCommand mem cmd out prev).longTerm.unresolvedLeads
      rw [heq]
      exact detectLeadsList_unique _ _ _ h
    | resolve room ty =>
      show leadsUnique (mem.longTerm.unresolvedLeads.filter
        (fun l => !(l.room == room && l.type == ty)))
      exact leadsUnique_filter _ h
  suffices hall : ∀ mem : ZorkMemory, leadsUnique mem.longTerm.unresolvedLeads →
      leadsUnique (runOps mem ops).longTerm.unresolvedLeads by
    exact hall initMemory (fun r t => by
      rw [show initMemory.longTerm.unresolvedLeads = [] from rfl]
      simp)
  induction ops with
  | nil =>
    intro mem h
    exact h
  | cons op rest ih =>
    intro mem h
    rw [show runOps mem (op :: rest) = runOps (applyOp mem op) rest from rfl]
    exact ih (applyOp mem op) (key mem op h)

/-! ## Loop detection (claim C2) -/

theorem lastRepeat_isSome_iff (l : List CommandResult) :
    (lastRepeat l).isSome = true ↔
      ∃ i a b, l[i]? = some a ∧ l[i + 1]? = some b ∧ a.command = b.command := by
  induction l with
  | nil =>
    constructor
    · intro h
      simp [lastRepeat] at h
    · rintro ⟨i, a, b, ha, _, _⟩
      simp at ha
  | cons x t ih =>
    cases t with
    | nil =>
      constructor
      · intro h
        simp [lastRepeat] at h
      · rintro ⟨i, a, b, ha, hb, _⟩
        rcases i with _ | n
        · simp at hb
        · simp at ha
    | cons y t2 =>
      have hstep : (lastRepeat (x :: y :: t2)).isSome = true ↔
          x.command = y.command ∨ (lastRepeat (y :: t2)).isSome = true := by
        rw [show lastRepeat (x :: y :: t2) =
          (match lastRepeat (y :: t2) with
           | some s => some s
           | none => if x.command == y.command then some y.command else none) from rfl]
        cases h : lastRepeat (y :: t2) with
        | some s => simp
        | none =>
          by_cases hc : x.command = y.command
          · simp [hc]
          · simp [hc]
      rw [hstep, ih]
      constructor
      · rintro (hc | ⟨i, a, b, ha, hb, hcom⟩)
        · exact ⟨0, x, y, rfl, by simp, hc⟩
        · refine ⟨i + 1, a, b, ?_, ?_, hcom⟩
          · simpa using ha
          · simpa using hb
      · rintro ⟨i, a, b, ha, hb, hcom⟩
        rcases i with _ | j
        · left
          simp only [List.getElem?_cons_zero, List.getElem?_cons_succ,
            Option.some.injEq] at ha hb
          rw [← ha, ← hb] at hcom
          exact hcom
        · right
          refine ⟨j, a, b, ?_, ?_, hcom⟩
          · simpa using ha
          · simpa using hb

theorem detectLoops_stuck_case (mem : ZorkMemory)
    (hnone : lastRepeat (takeLast 6 mem.shortTerm.lastCommands) = none)
    (hnalt : ∀ a b c2 d,
      takeLast 4 (takeLast 6 mem.shortTerm.lastCommands) = [a, b, c2, d] →
      (a.command == c2.command && b.command == d.command && a.command != b.command) = false) :
    detectLoops mem = detectStuck mem.shortTerm.noChangeTurns := by
  simp only [detectLoops]
  rw [hnone]
  cases h4 : takeLast 4 (takeLast 6 mem.shortTerm.lastCommands) with
  | nil => rfl
  | cons a t1 =>
    cases t1 with
    | nil => rfl
    | cons b t2 =>
      cases t2 with
      | nil => rfl
      | cons c2 t3 =>
        cases t3 with
        | nil => rfl
        | cons d t4 =>
          cases t4 with
          | cons x5 t5 => rfl
          | nil =>
            have hfls := hnalt a b c2 d h4
            show (if (a.command == c2.command && b.command == d.command &&
                a.command != b.command) = true then _ else
              detectStuck mem.shortTerm.noChangeTurns) = _
            rw [hfls]
            simp

/-- C2: `detectLoops` classifies the rolling window with first-match
priority repeat, then alternation, then stuck: two consecutive equal
commands among the last 6 entries give pattern `repeat`; otherwise a
last-four window of commands A,B,A,B with A different from B gives
pattern `alternation`; otherwise a no-change streak of at least 3 gives
pattern `stuck`; otherwise the result reports not looping. -/
theorem C2_detectLoops (mem : ZorkMemory) :
    ((∃ i a b, (takeLast 6 mem.shortTerm.lastCommands)[i]? = some a ∧
        (takeLast 6 mem.shortTerm.lastCommands)[i + 1]? = some b ∧
        a.command = b.command) →
      (detectLoops mem).isLooping = true ∧ (detectLoops mem).pattern = some "repeat") ∧
    (¬(∃ i a b, (takeLast 6 mem.shortTerm.lastCommands)[i]? = some a ∧
        (takeLast 6 mem.shortTerm.lastCommands)[i + 1]? = some b ∧
        a.command = b.command) →
      (∃ A B, A ≠ B ∧
        (takeLast 4 (takeLast 6 mem.shortTerm.lastCommands)).map
          (fun r => r.command) = [A, B, A, B]) →
      (detectLoops mem).isLooping = true ∧
        (detectLoops mem).pattern = some "alternation") ∧
    (¬(∃ i a b, (takeLast 6 mem.shortTerm.lastCommands)[i]? = some a ∧
        (takeLast 6 mem.shortTerm.lastCommands)[i + 1]? = some b ∧
        a.command = b.command) →
      ¬(∃ A B, A ≠ B ∧
        (takeLast 4 (takeLast 6 mem.shortTerm.lastCommands)).map
          (fun r => r.command) = [A, B, A, B]) →
      3 ≤ mem.shortTerm.noChangeTurns →
      (detectLoops mem).isLooping = true ∧ (detectLoops mem).pattern = some "stuck") ∧
    (¬(∃ i a b, (takeLast 6 mem.shortTerm.lastCommands)[i]? = some a ∧
        (takeLast 6 mem.shortTerm.lastCommands)[i + 1]? = some b ∧
        a.command = b.command) →
      ¬(∃ A B, A ≠ B ∧
        (takeLast 4 (takeLast 6 mem.shortTerm.lastCommands)).map
          (fun r => r.command) = [A, B, A, B]) →
      mem.shortTerm.noChangeTurns < 3 →
      detectLoops mem = { isLooping := false, pattern := none, suggestion := "" }) := by
  have hnones : ∀ (hnrep : ¬(∃ i a b,
      (takeLast 6 mem.shortTerm.lastCommands)[i]? = some a ∧
      (takeLast 6 mem.shortTerm.lastCommands)[i + 1]? = some b ∧
      a.command = b.command)), lastRepeat (takeLast 6 mem.shortTerm.lastCommands) = none := by
    intro hnrep
    cases h : lastRepeat (takeLast 6 mem.shortTerm.lastCommands) with
    | none => rfl
    | some c =>
      exact absurd ((lastRepeat_isSome_iff _).mp (by rw [h]; rfl)) hnrep
  have hnalts : ∀ (hnalt : ¬(∃ A B, A ≠ B ∧
      (takeLast 4 (takeLast 6 mem.shortTerm.lastCommands)).map
        (fun r => r.command) = [A, B, A, B])),
      ∀ a b c2 d, takeLast 4 (takeLast 6 mem.shortTerm.lastCommands) = [a, b, c2, d] →
      (a.command == c2.command && b.command == d.command && a.command != b.command) =
        false := by
    intro hnalt a b c2 d h4
    by_contra hcond
    rw [Bool.not_eq_false, Bool.and_eq_true, Bool.and_eq_true] at hcond
    obtain ⟨⟨h13, h24⟩, h12⟩ := hcond
    refine hnalt ⟨a.command, b.command, ?_, ?_⟩
    · intro h
      rw [h] at h12
      simp at h12
    · rw [h4]
      simp only [List.map_cons, List.map_nil]
      rw [show c2.command = a.command from (beq_iff_eq.mp h13).symm,
        show d.command = b.command from (beq_iff_eq.mp h24).symm]
  refine ⟨?_, ?_, ?_, ?_⟩
  · intro hex
    obtain ⟨c, hc⟩ := Option.isSome_iff_exists.mp ((lastRepeat_isSome_iff _).mpr hex)
    have hdl : detectLoops mem = LoopDetection.mk true (some "repeat")
        ("Command \"" ++ c ++ "\" repeated - try something different") := by
      simp only [detectLoops]
      rw [hc]
    rw [hdl]
    exact ⟨rfl, rfl⟩
  · intro hnrep halt
    obtain ⟨A, B, hAB, hmap⟩ := halt
    have hnone := hnones hnrep
    rcases h4 : takeLast 4 (takeLast 6 mem.shortTerm.lastCommands) with
      _ | ⟨a, _ | ⟨b, _ | ⟨c2, _ | ⟨d, _ | ⟨x5, t5⟩⟩⟩⟩⟩ <;>
      rw [h4] at hmap <;> [skip; skip; skip; skip; skip; simp at hmap]
    · simp at hmap
    · simp at hmap
    · simp at hmap
    · simp at hmap
    · simp only [List.map_cons, List.map_nil, List.cons.injEq, and_true] at hmap
      obtain ⟨ha, hb, hc2, hd⟩ := hmap
      have hdl : detectLoops mem = LoopDetection.mk true (some "alternation")
          ("Alternating " ++ a.command ++ "/" ++ b.command ++ " - break the pattern") := by
        simp only [detectLoops]
        rw [hnone, h4]
        show (if (a.command == c2.command && b.command == d.command &&
            a.command != b.command) = true then _ else _) = _
        rw [show (a.command == c2.command && b.command == d.command &&
            a.command != b.command) = true from by
          rw [ha, hb, hc2, hd]
          simp [hAB]]
        rfl
      rw [hdl]
      exact ⟨rfl, rfl⟩
  · intro hnrep hnalt hn
    have hdl := detectLoops_stuck_case mem (hnones hnrep) (hnalts hnalt)
    rw [hdl]
    unfold detectStuck
    rw [if_pos hn]
    exact ⟨rfl, rfl⟩
  · intro hnrep hnalt hn
    have hdl := detectLoops_stuck_case mem (hnones hnrep) (hnalts hnalt)
    rw [hdl]
    unfold detectStuck
    rw [if_neg (by omega)]

/-- Closed instance of C2 at the command history `N, S, N, S`, which is
reported as an alternation loop. -/
theorem C2_detectLoops_witness :
    (detectLoops memNSNS).isLooping = true ∧
    (detectLoops memNSNS).pattern = some "alternation" := by
  have hnrep : ¬(∃ i a b, (takeLast 6 memNSNS.shortTerm.lastCommands)[i]? = some a ∧
      (takeLast 6 memNSNS.shortTerm.lastCommands)[i + 1]? = some b ∧
      a.command = b.command) := by
    intro hex
    have h1 := (lastRepeat_isSome_iff _).mpr hex
    rw [show lastRepeat (takeLast 6 memNSNS.shortTerm.lastCommands) = none from by decide]
      at h1
    simp at h1
  have halt : ∃ A B, A ≠ B ∧
      (takeLast 4 (takeLast 6 memNSNS.shortTerm.lastCommands)).map
        (fun r => r.command) = [A, B, A, B] :=
    ⟨"N", "S", by decide, by decide⟩
  exact (C2_detectLoops memNSNS).2.1 hnrep halt

/-! ## Exit direction codes (claim C9) -/

theorem mem_scanCaps {tryAt : List Char → Option (Nat × List Char)} :
    ∀ {fuel : Nat} {l g}, g ∈ scanCaps tryAt fuel l → ∃ l' n, tryAt l' = some (n, g) := by
  intro fuel
  induction fuel with
  | zero =>
    intro l g h
    simp [scanCaps] at h
  | succ fuel ih =>
    intro l g h
    cases l with
    | nil => simp [scanCaps] at h
    | cons c r =>
      rw [show scanCaps tryAt (fuel + 1) (c :: r) =
        (match tryAt (c :: r) with
         | some (n, g') => g' :: scanCaps tryAt fuel ((c :: r).drop n)
         | none => scanCaps tryAt fuel r) from rfl] at h
      cases ht : tryAt (c :: r) with
      | some p =>
        rw [ht] at h
        obtain ⟨n, g'⟩ := p
        rcases List.mem_cons.mp h with rfl | h2
        · exact ⟨c :: r, n, ht⟩
        · exact ih h2
      | none =>
        rw [ht] at h
        exact ih h

theorem tryDirAt_cap {ws : List (List Char)} {l : List Char} {n : Nat} {g : List Char}
    (h : tryDirAt ws l = some (n, g)) : g ∈ ws := by
  unfold tryDirAt firstPrefixOf at h
  cases hf : ws.find? (fun w => w.isPrefixOf l) with
  | none => rw [hf] at h; exact absurd h (by simp)
  | some w =>
    rw [hf] at h
    simp only [Option.map_some', Option.some.injEq, Prod.mk.injEq] at h
    rw [← h.2]
    exact List.mem_of_find?_eq_some hf

theorem firstPrefixOf_mem {ws : List (List Char)} {l w : List Char}
    (h : firstPrefixOf ws l = some w) : w ∈ ws := by
  unfold firstPrefixOf at h
  exact List.mem_of_find?_eq_some h

theorem tryExit1_cap {l : List Char} {n : Nat} {g : List Char}
    (h : tryExit1 l = some (n, g)) : g ∈ altsOf dirWords10 := by
  unfold tryExit1 at h
  split at h
  · cases hf : firstPrefixOf (altsOf dirWords10) (l.drop 7) with
    | some w =>
      rw [hf] at h
      simp only [Option.some.injEq, Prod.mk.injEq] at h
      rw [← h.2]
      exact firstPrefixOf_mem hf
    | none =>
      rw [hf] at h
      exact tryDirAt_cap h
  · exact tryDirAt_cap h

theorem tryExit2_cap {l : List Char} {n : Nat} {g : List Char}
    (h : tryExit2 l = some (n, g)) : g ∈ altsOf cardinal4 := by
  unfold tryExit2 at h
  split at h
  · cases hf : firstPrefixOf (altsOf cardinal4) (l.drop 11) with
    | some w =>
      rw [hf] at h
      simp only [Option.map_some', Option.some.injEq, Prod.mk.injEq] at h
      rw [← h.2]
      exact firstPrefixOf_mem hf
    | none => rw [hf] at h; exact absurd h (by simp)
  · exact absurd h (by simp)

theorem tryExit3_cap {l : List Char} {n : Nat} {g : List Char}
    (h : tryExit3 l = some (n, g)) : g ∈ altsOf cardinal4 := by
  unfold tryExit3 at h
  split at h
  · cases hf : firstPrefixOf (altsOf cardinal4) (l.drop 12) with
    | some w =>
      rw [hf] at h
      simp only [Option.map_some', Option.some.injEq, Prod.mk.injEq] at h
      rw [← h.2]
      exact firstPrefixOf_mem hf
    | none => rw [hf] at h; exact absurd h (by simp)
  · exact absurd h (by simp)

theorem tryExit4_cap {l : List Char} {n : Nat} {g : List Char}
    (h : tryExit4 l = some (n, g)) : g ∈ altsOf dirWords6 := by
  unfold tryExit4 at h
  split at h
  · split at h
    · cases hf : firstPrefixOf (altsOf dirWords6) ((l.drop 5).drop 7) with
      | some w =>
        rw [hf] at h
        simp only [Option.some.injEq, Prod.mk.injEq] at h
        rw [← h.2]
        exact firstPrefixOf_mem hf
      | none =>
        rw [hf] at h
        cases hf2 : firstPrefixOf (altsOf dirWords6) (l.drop 5) with
        | some w =>
          rw [hf2] at h
          simp only [Option.map_some', Option.some.injEq, Prod.mk.injEq] at h
          rw [← h.2]
          exact firstPrefixOf_mem hf2
        | none => rw [hf2] at h; exact absurd h (by simp)
    · cases hf2 : firstPrefixOf (altsOf dirWords6) (l.drop 5) with
      | some w =>
        rw [hf2] at h
        simp only [Option.map_some', Option.some.injEq, Prod.mk.injEq] at h
        rw [← h.2]
        exact firstPrefixOf_mem hf2
      | none => rw [hf2] at h; exact absurd h (by simp)
  · exact absurd h (by simp)

theorem capToDir_allowed :
    (∀ g ∈ altsOf dirWords10, capToDir g ∈ (["N", "S", "E", "W", "U", "D"] : List String)) ∧
    (∀ g ∈ altsOf cardinal4, capToDir g ∈ (["N", "S", "E", "W", "U", "D"] : List String)) ∧
    (∀ g ∈ altsOf dirWords6, capToDir g ∈ (["N", "S", "E", "W", "U", "D"] : List String)) := by
  decide

theorem mem_foldl_dirAcc {caps : List (List Char)} {init : List String} {e : String}
    (h : e ∈ caps.foldl
      (fun acc g => if acc.contains (capToDir g) then acc else acc ++ [capToDir g]) init) :
    e ∈ init ∨ ∃ g ∈ caps, e = capToDir g := by
  induction caps generalizing init with
  | nil => exact Or.inl h
  | cons g rest ih =>
    rw [List.foldl_cons] at h
    rcases ih h with hin | ⟨g', hg', rfl⟩
    · revert hin
      split
      · intro hin
        exact Or.inl hin
      · intro hin
        rcases List.mem_append.mp hin with hin | hin
        · exact Or.inl hin
        · right
          exact ⟨g, List.mem_cons_self g rest, by simpa using hin⟩
    · exact Or.inr ⟨g', List.mem_cons_of_mem g hg', rfl⟩

theorem mem_exitsOf {ft : List Char} {e : String} (h : e ∈ exitsOf ft) :
    e ∈ (["N", "S", "E", "W", "U", "D"] : List String) := by
  simp only [exitsOf] at h
  rcases mem_foldl_dirAcc h with h0 | ⟨g, hg, rfl⟩
  · simp at h0
  · rcases List.mem_append.mp hg with hg | hg4
    · rcases List.mem_append.mp hg with hg | hg3
      · rcases List.mem_append.mp hg with hg1 | hg2
        · obtain ⟨l', n, ht⟩ := mem_scanCaps hg1
          exact capToDir_allowed.1 g (tryExit1_cap ht)
        · obtain ⟨l', n, ht⟩ := mem_scanCaps hg2
          exact capToDir_allowed.2.1 g (tryExit2_cap ht)
      · obtain ⟨l', n, ht⟩ := mem_scanCaps hg3
        exact capToDir_allowed.2.1 g (tryExit3_cap ht)
    · obtain ⟨l', n, ht⟩ := mem_scanCaps hg4
      exact capToDir_allowed.2.2 g (tryExit4_cap ht)

theorem extractStateCore_exits (lastSt : Option GameState) (out : String) :
    (extractStateCore lastSt out).exits =
      (if (exitsOf (fullTextOf lastSt out)).isEmpty then ["N", "S", "E", "W"]
       else exitsOf (fullTextOf lastSt out)) := by
  simp only [extractStateCore]

theorem extractState_exits_codes (lastSt : Option GameState) (out : String) :
    ∀ e ∈ (extractStateCore lastSt out).exits,
      e ∈ (["N", "S", "E", "W", "U", "D"] : List String) := by
  intro e he
  rw [extractStateCore_exits] at he
  revert he
  split
  · intro hx
    rcases (by simpa using hx : e = "N" ∨ e = "S" ∨ e = "E" ∨ e = "W") with
      rfl | rfl | rfl | rfl <;> decide
  · intro hx
    exact mem_exitsOf hx

theorem updateAfterCommand_rooms (mem : ZorkMemory) (cmd out : String)
    (prev : Option GameState) :
    (updateAfterCommand mem cmd out prev).longTerm.rooms =
      (updateRoomInfo mem.longTerm (extractStateCore mem.lastState out) cmd).rooms := rfl

theorem updateRoomInfo_tried (lt : LongTermMemory) (state : GameState) (cmd : String)
    (h : (movementCommands.contains (toUpperS cmd) ||
      directionMapKeys.contains (toUpperS cmd)) = true) :
    ∃ room, roomsLookup (updateRoomInfo lt state cmd).rooms state.currentRoom = some room ∧
      String.mk ((cs (toUpperS cmd)).take 1) ∈ room.triedExits := by
  simp only [updateRoomInfo]
  rw [h]
  refine ⟨_, assocLookup_assocSet_self _ _ _, ?_⟩
  simp only [eq_self_iff_true, if_true]
  repeat' split
  all_goals dsimp only
  all_goals exact mem_setAdd_self _ _

/-- C9 (counterexample): the text `northeast` is not indistinguishable
from `north`: ordered alternation matches it as `north` followed by
`east`, so the extracted exits are `N` and `E`, while `north` alone
yields only `N`. -/
theorem C9_counterexample :
    (extractStateCore none "Forest\nYou can go northeast.").exits = ["N", "E"] ∧
    (extractStateCore none "Forest\nYou can go north.").exits = ["N"] := by
  decide

/-- C9 (amended): every exit recorded by `extractState` is the single
first letter of a matched direction word (one of N/S/E/W/U/D, with the
parenthetical corrected: `northeast` is matched as `north` then `east`
and so records the two codes `N` and `E`); and `updateAfterCommand`
marks a movement command as a tried exit using only the first character
of the uppercased command. -/
theorem C9_amended :
    (∀ (lastSt : Option GameState) (out : String),
      ∀ e ∈ (extractStateCore lastSt out).exits,
        e ∈ (["N", "S", "E", "W", "U", "D"] : List String)) ∧
    (extractStateCore none "Forest\nYou can go northeast.").exits = ["N", "E"] ∧
    (∀ (mem : ZorkMemory) (cmd out : String) (prev : Option GameState),
      (movementCommands.contains (toUpperS cmd) ||
        directionMapKeys.contains (toUpperS cmd)) = true →
      ∃ room, roomsLookup (updateAfterCommand mem cmd out prev).longTerm.rooms
          (extractStateCore mem.lastState out).currentRoom = some room ∧
        String.mk ((cs (toUpperS cmd)).take 1) ∈ room.triedExits) := by
  refine ⟨extractState_exits_codes, by decide, ?_⟩
  intro mem cmd out prev h
  rw [updateAfterCommand_rooms]
  exact updateRoomInfo_tried _ _ _ h

/-- Closed instance of the amended C9: issuing `NE` marks the single
exit letter `N` as tried. -/
theorem C9_amended_witness :
    (movementCommands.contains (toUpperS "NE") ||
      directionMapKeys.contains (toUpperS "NE")) = true ∧
    ∃ room, roomsLookup (updateAfterCommand initMemory "NE" "Forest" none).longTerm.rooms
        (extractStateCore initMemory.lastState "Forest").currentRoom = some room ∧
      "N" ∈ room.triedExits := by
  refine ⟨by decide, ?_⟩
  have h := C9_amended.2.2 initMemory "NE" "Forest" none (by decide)
  rw [show String.mk ((cs (toUpperS "NE")).take 1) = "N" from by decide] at h
  exact h

/-! ## Global inventory maintenance (claim C6) -/

theorem update_globalInventory (mem : ZorkMemory) (cmd out : String)
    (prev : Option GameState) :
    (updateAfterCommand mem cmd out prev).longTerm.globalInventory =
      (let result := classifyResult prev cmd out (extractStateCore mem.lastState out).currentRoom
       let gi1 :=
         if startsWithS cmd "TAKE" && result = .progress then
           setAdd mem.longTerm.globalInventory
             (trimS (String.mk (dropFirstOcc (cs "TAKE ") (cs cmd))))
         else mem.longTerm.globalInventory
       if startsWithS cmd "DROP" && result = .progress then
         gi1.filter (fun x => x != trimS (String.mk (dropFirstOcc (cs "DROP ") (cs cmd))))
       else gi1) := rfl

theorem startsWithS_prefix {s p : String} (h : startsWithS s p = true) :
    ∃ t, s.data = p.data ++ t := by
  unfold startsWithS cs at h
  rw [List.isPrefixOf_iff_prefix] at h
  obtain ⟨t, ht⟩ := h
  exact ⟨t, ht.symm⟩

theorem drop_excl (cmd : String) (h : startsWithS cmd "DROP" = true) :
    startsWithS cmd "TAKE" = false ∧ startsWithS cmd "OPEN" = false ∧
    (cmd == "LOOK") = false ∧ (cmd == "INVENTORY") = false ∧
    startsWithS cmd "EXAMINE" = false := by
  obtain ⟨t, ht⟩ := startsWithS_prefix h
  rw [show ("DROP" : String).data = ['D', 'R', 'O', 'P'] from rfl] at ht
  refine ⟨?_, ?_, ?_, ?_, ?_⟩
  · rw [Bool.eq_false_iff]
    intro h2
    obtain ⟨t2, ht2⟩ := startsWithS_prefix h2
    rw [show ("TAKE" : String).data = ['T', 'A', 'K', 'E'] from rfl, ht] at ht2
    simp at ht2
  · rw [Bool.eq_false_iff]
    intro h2
    obtain ⟨t2, ht2⟩ := startsWithS_prefix h2
    rw [show ("OPEN" : String).data = ['O', 'P', 'E', 'N'] from rfl, ht] at ht2
    simp at ht2
  · rw [beq_eq_false_iff_ne]
    intro h2
    rw [h2, show ("LOOK" : String).data = ['L', 'O', 'O', 'K'] from rfl] at ht
    simp at ht
  · rw [beq_eq_false_iff_ne]
    intro h2
    rw [h2, show ("INVENTORY" : String).data =
      ['I', 'N', 'V', 'E', 'N', 'T', 'O', 'R', 'Y'] from rfl] at ht
    simp at ht
  · rw [Bool.eq_false_iff]
    intro h2
    obtain ⟨t2, ht2⟩ := startsWithS_prefix h2
    rw [show ("EXAMINE" : String).data = ['E', 'X', 'A', 'M', 'I', 'N', 'E'] from rfl,
      ht] at ht2
    simp at ht2

theorem take_not_drop (cmd : String) (h : startsWithS cmd "TAKE" = true) :
    startsWithS cmd "DROP" = false := by
  obtain ⟨t, ht⟩ := startsWithS_prefix h
  rw [show ("TAKE" : String).data = ['T', 'A', 'K', 'E'] from rfl] at ht
  rw [Bool.eq_false_iff]
  intro h2
  obtain ⟨t2, ht2⟩ := startsWithS_prefix h2
  rw [show ("DROP" : String).data = ['D', 'R', 'O', 'P'] from rfl, ht] at ht2
  simp at ht2

/-- C6 (counterexample): a successful `TAKE LAMP` adds `LAMP` to the
global inventory, but a subsequent `DROP LAMP` whose output matches no
failure keyword and leaves the room unchanged is classified `no-change`,
so `LAMP` is never removed from the inventory. -/
theorem C6_counterexample :
    takeMemEx.longTerm.globalInventory = ["LAMP"] ∧
    containsAny (lowerCh (cs "dropped.")) updateFailAlts = false ∧
    (dropMemEx.lastState.map (fun s => s.currentRoom)) =
      (takeMemEx.lastState.map (fun s => s.currentRoom)) ∧
    ((dropMemEx.shortTerm.lastCommands.getLast?).map (fun r => r.result)) =
      some RType.nochange ∧
    dropMemEx.longTerm.globalInventory = ["LAMP"] := by
  decide

/-- C6 (amended): a TAKE classified `progress` adds the item name to
the global inventory; a DROP removes the item only when classified
`progress`, and a DROP whose output matches no failure keyword and whose
parsed room is unchanged is classified `no-change`, leaving the global
inventory untouched. -/
theorem C6_amended :
    (∀ (mem : ZorkMemory) (cmd out : String) (prev : Option GameState),
      startsWithS cmd "TAKE" = true →
      classifyResult prev cmd out (extractStateCore mem.lastState out).currentRoom =
        .progress →
      trimS (String.mk (dropFirstOcc (cs "TAKE ") (cs cmd))) ∈
        (updateAfterCommand mem cmd out prev).longTerm.globalInventory) ∧
    (∀ (mem : ZorkMemory) (cmd out : String) (p : GameState),
      startsWithS cmd "DROP" = true →
      containsAny (lowerCh (cs out)) updateFailAlts = false →
      (extractStateCore mem.lastState out).currentRoom = p.currentRoom →
      classifyResult (some p) cmd out (extractStateCore mem.lastState out).currentRoom =
        .nochange ∧
      (updateAfterCommand mem cmd out (some p)).longTerm.globalInventory =
        mem.longTerm.globalInventory) := by
  constructor
  · intro mem cmd out prev h1 h2
    rw [update_globalInventory]
    simp only [h1, h2, take_not_drop cmd h1]
    simp
    exact mem_setAdd_self _ _
  · intro mem cmd out p h1 h2 h3
    obtain ⟨hnt, hno, hnl, hni, hne⟩ := drop_excl cmd h1
    have hcls : classifyResult (some p) cmd out
        (extractStateCore mem.lastState out).currentRoom = .nochange := by
      unfold classifyResult
      rw [if_neg (by rw [h2]; exact Bool.false_ne_true)]
      rw [if_neg (by rw [h3]; simp)]
      rw [if_neg (by rw [hnt]; simp)]
      rw [if_neg (by rw [hno]; simp)]
      rw [if_neg (by rw [hnl, hni, hne]; simp)]
    refine ⟨hcls, ?_⟩
    rw [update_globalInventory]
    simp only [hcls, hnt, h1]
    simp

/-- Closed instance of the amended C6 at the concrete TAKE/DROP run. -/
theorem C6_amended_witness :
    "LAMP" ∈ takeMemEx.longTerm.globalInventory ∧
    dropMemEx.longTerm.globalInventory = takeMemEx.longTerm.globalInventory := by
  have h1 := (C6_amended.1 initMemory "TAKE LAMP" "Taken." none (by decide) (by decide))
  have hls : takeMemEx.lastState = some stateTakenEx := by decide
  have h2 := (C6_amended.2 takeMemEx "DROP LAMP" "dropped." stateTakenEx (by decide)
    (by decide) (by decide)).2
  constructor
  · have heq : trimS (String.mk (dropFirstOcc (cs "TAKE ") (cs "TAKE LAMP"))) = "LAMP" := by
      decide
    rw [heq] at h1
    exact h1
  · show (updateAfterCommand takeMemEx "DROP LAMP" "dropped." takeMemEx.lastState
      ).longTerm.globalInventory = takeMemEx.longTerm.globalInventory
    rw [hls]
    exact h2

/-- Closed instance of C8 in the scenario-A state, whose best candidate
is `EXAMINE MAILBOX`. -/
theorem C8_validateCommand_witness :
    getBestAction memWoH =
      some { command := "EXAMINE MAILBOX", score := 2,
             reason := "Unexamined object: MAILBOX" } ∧
    (validateCommand memWoH "GO WEST").valid = false ∧
    (validateCommand memWoH "GO WEST").adjusted = "EXAMINE MAILBOX" := by
  have hb : getBestAction memWoH =
      some { command := "EXAMINE MAILBOX", score := 2,
             reason := "Unexamined object: MAILBOX" } := by decide
  have h := (C8_validateCommand memWoH _ hb).1
  exact ⟨hb, h.1, h.2⟩

end Zork
